import Mathlib

/-!
Verification development for the container-query polyfill
(stylesheet transpiler and incremental condition-evaluation engine).

The definitions below are shallow embeddings of the TypeScript sources:
  - src/src/parser.ts        (container rule / value parsing)
  - src/unnamed/part_001     (utils/parse-media-query.ts: the condition grammar)
  - src/src/transform.ts and src/unnamed/part_000 (stylesheet transform)
  - src/src/engine.ts        (layout state engine, second revision)

JavaScript machine numbers are modelled by JSNumber (exact rationals plus
NaN and the two infinities); JS parseInt / parseFloat are modelled on
decimal representations (computed-style values and CSS numeric tokens are
plain decimals).  Mutable state (parser cursors, Maps, accumulating
arrays) is modelled by explicit state passing.
-/

set_option maxHeartbeats 1000000

namespace ContainerQueryPolyfill

/-! ## String helpers

Lean's core String functions (toLower, startsWith, splitOn, trim, ...) do
not reduce inside the kernel, so the JS string operations used by the
sources are modelled directly on the character lists. -/

/-- ASCII lower-casing of one character (JS toLowerCase on the inputs that
occur: CSS idents and keywords). -/
def lowerChar (c : Char) : Char :=
  if 65 ≤ c.toNat ∧ c.toNat ≤ 90 then Char.ofNat (c.toNat + 32) else c

/-- JS String.prototype.toLowerCase. -/
def strLower (s : String) : String := ⟨s.data.map lowerChar⟩

/-- JS String.prototype.startsWith. -/
def strStartsWith (s p : String) : Bool := p.data.isPrefixOf s.data

/-- JS String.prototype.endsWith. -/
def strEndsWith (s p : String) : Bool := p.data.reverse.isPrefixOf s.data.reverse

/-- JS String.prototype.substring(n) (drop the first n characters). -/
def strDrop (s : String) (n : ℕ) : String := ⟨s.data.drop n⟩

/-- JS String.prototype.substring(0, length - n) (drop the last n characters). -/
def strDropRight (s : String) (n : ℕ) : String := ⟨s.data.take (s.data.length - n)⟩

/-- JS String.prototype.trim. -/
def strTrim (s : String) : String :=
  ⟨((s.data.dropWhile Char.isWhitespace).reverse.dropWhile Char.isWhitespace).reverse⟩

/-- Split a character list at every occurrence of the character c. -/
def splitCharsOn (c : Char) : List Char → List (List Char)
  | [] => [[]]
  | x :: t =>
    if x = c then [] :: splitCharsOn c t
    else
      match splitCharsOn c t with
      | s :: ss => (x :: s) :: ss
      | [] => [[x]]

/-- JS String.prototype.split(' ') (a single-space separator). -/
def strSplitOnSpace (s : String) : List String :=
  (splitCharsOn ' ' s.data).map (fun cs => ⟨cs⟩)

/-- Substring containment test over character lists. -/
def listContainsSeq (pat : List Char) : List Char → Bool
  | [] => pat.isEmpty
  | x :: t => pat.isPrefixOf (x :: t) || listContainsSeq pat t

/-- True when pat occurs as a contiguous substring of s. -/
def strContainsSeq (s pat : String) : Bool := listContainsSeq pat.data s.data

/-- JS Array.prototype.join(sep). -/
def strJoinSep (sep : String) : List String → String
  | [] => ""
  | [x] => x
  | x :: xs => x ++ sep ++ strJoinSep sep xs

/-- JS Array.prototype.join('') over already-serialized pieces. -/
def strJoin (l : List String) : String := l.foldl (· ++ ·) ""

/-! ## JavaScript number model -/

/-- JS number: NaN, infinities, or an exact rational. -/
inductive JSNumber where
  | nan
  | posInf
  | negInf
  | num (q : ℚ)
deriving DecidableEq, Repr

def JSNumber.neg : JSNumber → JSNumber
  | .nan => .nan
  | .posInf => .negInf
  | .negInf => .posInf
  | .num q => .num (-q)

def JSNumber.add : JSNumber → JSNumber → JSNumber
  | .nan, _ => .nan
  | _, .nan => .nan
  | .posInf, .negInf => .nan
  | .negInf, .posInf => .nan
  | .posInf, _ => .posInf
  | _, .posInf => .posInf
  | .negInf, _ => .negInf
  | _, .negInf => .negInf
  | .num a, .num b => .num (a + b)

def JSNumber.sub (a b : JSNumber) : JSNumber := a.add b.neg

def JSNumber.div : JSNumber → JSNumber → JSNumber
  | .nan, _ => .nan
  | _, .nan => .nan
  | .posInf, .posInf => .nan
  | .posInf, .negInf => .nan
  | .negInf, .posInf => .nan
  | .negInf, .negInf => .nan
  | .posInf, .num b => if 0 ≤ b then .posInf else .negInf
  | .negInf, .num b => if 0 ≤ b then .negInf else .posInf
  | .num _, .posInf => .num 0
  | .num _, .negInf => .num 0
  | .num a, .num b =>
      if b = 0 then (if a = 0 then .nan else if 0 < a then .posInf else .negInf)
      else .num (a / b)

/-- Numeric value of a list of decimal digit characters. -/
def digitsVal (cs : List Char) : ℕ :=
  cs.foldl (fun acc c => acc * 10 + (c.toNat - 48)) 0

/-- The optional leading sign of a JS numeric literal: whether it is a
minus, and the characters after the sign. -/
def jsSign (cs : List Char) : Bool × List Char :=
  match cs with
  | c :: r => if c = '-' then (true, r) else if c = '+' then (false, r) else (false, cs)
  | [] => (false, [])

/-- JS parseInt on a decimal representation: skip leading whitespace, read an
optional sign and then the longest digit prefix; no digits gives NaN.
(The hexadecimal form never arises from CSS numeric tokens.) -/
def jsParseInt (s : String) : JSNumber :=
  let cs := s.toList.dropWhile Char.isWhitespace
  let sr := jsSign cs
  let ds := sr.2.takeWhile Char.isDigit
  if ds.isEmpty then .nan
  else .num ((if sr.1 then -1 else 1) * (digitsVal ds : ℚ))

/-- JS parseFloat on a decimal representation: optional sign, integer digits,
optional fraction; NaN when no digits at all.  (Exponent forms never arise
from computed-style serializations read by the engine.) -/
def jsParseFloat (s : String) : JSNumber :=
  let cs := s.toList.dropWhile Char.isWhitespace
  let sr := jsSign cs
  let ds := sr.2.takeWhile Char.isDigit
  let rest2 := sr.2.drop ds.length
  let fs :=
    match rest2 with
    | c :: r3 => if c = '.' then r3.takeWhile Char.isDigit else []
    | [] => []
  if ds.isEmpty ∧ fs.isEmpty then .nan
  else
    .num ((if sr.1 then -1 else 1) *
      ((digitsVal ds : ℚ) + (digitsVal fs : ℚ) / (10 : ℚ) ^ fs.length))

theorem digit_not_ws (c : Char) (h : c.isDigit = true) :
    c.isWhitespace = false := by
  cases hw : c.isWhitespace
  · rfl
  · exfalso
    have hw2 : c = ' ' ∨ c = '\t' ∨ c = '\x0d' ∨ c = '\n' := by
      simpa [Char.isWhitespace, or_assoc] using hw
    rcases hw2 with h1 | h1 | h1 | h1 <;> subst h1 <;> exact absurd h (by decide)

theorem digit_ne_minus (c : Char) (h : c.isDigit = true) : c ≠ '-' := by
  intro h1; subst h1; exact absurd h (by decide)

theorem digit_ne_plus (c : Char) (h : c.isDigit = true) : c ≠ '+' := by
  intro h1; subst h1; exact absurd h (by decide)

theorem jsSign_digit (d : Char) (cs : List Char) (hd : d.isDigit = true) :
    jsSign (d :: cs) = (false, d :: cs) := by
  simp [jsSign, digit_ne_minus d hd, digit_ne_plus d hd]

theorem takeWhile_digits_all (ds : List Char)
    (h : ∀ c ∈ ds, c.isDigit = true) : ds.takeWhile Char.isDigit = ds := by
  induction ds with
  | nil => simp
  | cons d t ih =>
    simp [List.takeWhile_cons, h d (by simp), ih (fun c hc => h c (by simp [hc]))]

theorem takeWhile_digits_dot (ds fs : List Char)
    (h : ∀ c ∈ ds, c.isDigit = true) :
    (ds ++ '.' :: fs).takeWhile Char.isDigit = ds := by
  induction ds with
  | nil => simp [List.takeWhile_cons, show ('.').isDigit = false from by decide]
  | cons d t ih =>
    simp [List.takeWhile_cons, h d (by simp), ih (fun c hc => h c (by simp [hc]))]

theorem dropWhile_ws_digit (d : Char) (cs : List Char) (hd : d.isDigit = true) :
    List.dropWhile Char.isWhitespace (d :: cs) = d :: cs := by
  rw [List.dropWhile_cons]
  simp [digit_not_ws d hd]

/-- jsParseInt keeps exactly the longest digit prefix (after the sign
position) of a digit-headed string. -/
theorem jsParseInt_digit_head (d : Char) (cs : List Char)
    (hd : d.isDigit = true) :
    jsParseInt ⟨d :: cs⟩ =
      .num (digitsVal ((d :: cs).takeWhile Char.isDigit)) := by
  simp only [jsParseInt, String.toList]
  simp only [dropWhile_ws_digit d cs hd, jsSign_digit d cs hd]
  simp [List.takeWhile_cons, hd, List.isEmpty, digitsVal]

/-- Fractional digits never influence jsParseInt. -/
theorem jsParseInt_fraction_irrelevant (d : Char) (ds fs : List Char)
    (hd : d.isDigit = true) (hds : ∀ c ∈ ds, c.isDigit = true) :
    jsParseInt ⟨(d :: ds) ++ '.' :: fs⟩ = jsParseInt ⟨d :: ds⟩ := by
  have hall : ∀ c ∈ d :: ds, c.isDigit = true := by
    intro c hc
    rcases List.mem_cons.mp hc with rfl | hc2
    · exact hd
    · exact hds c hc2
  rw [show ((d :: ds) ++ '.' :: fs) = d :: (ds ++ '.' :: fs) from rfl]
  rw [jsParseInt_digit_head d (ds ++ '.' :: fs) hd,
    jsParseInt_digit_head d ds hd]
  rw [show (d :: (ds ++ '.' :: fs)) = (d :: ds) ++ '.' :: fs from rfl]
  rw [takeWhile_digits_dot (d :: ds) fs hall,
    takeWhile_digits_all (d :: ds) hall]

/-! ## CSS node model (utils/css.ts data model)

The Node type unifies tokens and parse-tree nodes exactly as the source's
tagged union does.  BlockNode's inner record (block type and node list) is
flattened into the constructor. -/

inductive NumberFlag where
  | integer
  | number
deriving DecidableEq, Repr

inductive BlockType where
  | simpleBlock
  | ruleList
  | styleBlock
  | declarationList
deriving DecidableEq, Repr

inductive Node where
  | eof
  | whitespace
  | comma
  | colon
  | semicolon
  | leftParenthesis
  | leftSquareBracket
  | leftBrace
  | ident (value : String)
  | delim (value : String)
  | string (value : String)
  | number (value : String) (flag : NumberFlag)
  | dimension (value : String) (unit : String) (flag : NumberFlag)
  | functionNode (name : String) (value : List Node)
  | blockNode (source : Node) (btype : BlockType) (value : List Node)
  | atRuleNode (name : String) (prelude : List Node) (value : Option Node)
  | qualifiedRuleNode (prelude : List Node) (value : Node)
  | declarationNode (name : String) (value : List Node) (important : Bool)

/-- Type-tag test mirroring a `node.type === Type.EOFToken` check. -/
def isEOFTok : Node → Bool
  | .eof => true
  | _ => false

def isWhitespaceTok : Node → Bool
  | .whitespace => true
  | _ => false

/-- transform.ts isEndOfSelector: EOF or comma. -/
def isEndOfSelector : Node → Bool
  | .eof => true
  | .comma => true
  | _ => false

/-- transform.ts isPseudoElementStart: end of selector, a double colon, or a
single colon followed by a legacy pseudo-element ident. -/
def isPseudoElementStart (n1 n2 : Node) : Bool :=
  if isEndOfSelector n1 then true
  else
    match n1 with
    | .colon =>
      match n2 with
      | .colon => true
      | .ident v =>
        let lv := strLower v
        decide (lv = "before") || decide (lv = "after") ||
        decide (lv = "first-line") || decide (lv = "first-letter")
      | _ => false
    | _ => false

/-- transform.ts trimTrailingWhitespace: slice up to the last non-whitespace
node; a list with no non-whitespace node is returned unchanged. -/
def trimTrailingWhitespace (nodes : List Node) : List Node :=
  let r := nodes.reverse.dropWhile isWhitespaceTok
  if r.isEmpty then nodes else r.reverse

/-! ## transform.ts transformSelector

The source walks a 1-token-lookahead cursor over the selector token list
(indices into the full list).  The embedding carries instead the remaining
suffix r of the token list plus the token consumed at the end of the
previous comma segment (lead, the token at selectorStartIndex when the
cursor is mid-list): the source's slice(selectorStartIndex, pseudoStartIndex)
is exactly lead ++ the tokens consumed by the inner scan. -/

/-- Cursor lookahead: the head of the remaining tokens, or the EOF sentinel
past the end of the list. -/
def headE : List Node → Node
  | [] => .eof
  | n :: _ => n

/-- Inner loop "while (!isPseudoElementStart(parser.at(1), parser.at(2))) consume":
returns the consumed tokens and the rest.  Beyond the end of the list the
cursor reads the EOF sentinel, hence the headE default. -/
def scanNonPseudo : List Node → List Node × List Node
  | [] => ([], [])
  | n1 :: rest =>
    if isPseudoElementStart n1 (headE rest) then ([], n1 :: rest)
    else
      let (c, r') := scanNonPseudo rest
      (n1 :: c, r')

/-- Inner loop "while (!isEndOfSelector(parser.at(1))) consume". -/
def scanPseudo : List Node → List Node × List Node
  | [] => ([], [])
  | n1 :: rest =>
    if isEndOfSelector n1 then ([], n1 :: rest)
    else
      let (c, r') := scanPseudo rest
      (n1 :: c, r')

theorem scanNonPseudo_append_eq (r : List Node) :
    (scanNonPseudo r).1 ++ (scanNonPseudo r).2 = r := by
  induction r with
  | nil => simp [scanNonPseudo]
  | cons n rest ih =>
    simp only [scanNonPseudo]
    split
    · simp
    · simpa using ih

theorem scanNonPseudo_rest_length (r : List Node) :
    (scanNonPseudo r).2.length ≤ r.length := by
  induction r with
  | nil => simp [scanNonPseudo]
  | cons n rest ih =>
    simp only [scanNonPseudo]
    split
    · simp
    · simpa using Nat.le_succ_of_le ih

theorem scanPseudo_append_eq (r : List Node) :
    (scanPseudo r).1 ++ (scanPseudo r).2 = r := by
  induction r with
  | nil => simp [scanPseudo]
  | cons n rest ih =>
    simp only [scanPseudo]
    split
    · simp
    · simpa using ih

theorem scanPseudo_rest_length (r : List Node) :
    (scanPseudo r).2.length ≤ r.length := by
  induction r with
  | nil => simp [scanPseudo]
  | cons n rest ih =>
    simp only [scanPseudo]
    split
    · simp
    · simpa using Nat.le_succ_of_le ih

/-- The synthetic attribute the rewritten stylesheet keys on
(constants.ts is not under src/; the per-run uid suffix of the attribute
name is irrelevant to every claim and omitted). -/
def DATA_ATTRIBUTE_NAME : String := "data-cq"

/-- The attribute-presence block [data-cq~="uid"] built by transformSelector. -/
def attrBlock (containerUID : String) : Node :=
  .blockNode .leftSquareBracket .simpleBlock
    [.ident DATA_ATTRIBUTE_NAME, .delim "~", .delim "=", .string containerUID]

/-- The `:where([data-cq~="uid"])` suffix appended by transform.ts
transformSelector (lines 182-199). -/
def whereSuffix (containerUID : String) : List Node :=
  [.colon, .functionNode "where" [attrBlock containerUID]]

theorem transformSelectorGo_dec (n1 : Node) (rest : List Node) :
    (List.drop 1 (scanPseudo (scanNonPseudo (n1 :: rest)).2).2).length <
      (n1 :: rest).length := by
  have h1 := scanNonPseudo_rest_length (n1 :: rest)
  have h2 := scanPseudo_rest_length (scanNonPseudo (n1 :: rest)).2
  simp only [List.length_drop, List.length_cons] at *
  omega

/-- Main loop of transform.ts transformSelector (lines 139-207). -/
def transformSelectorGo (containerUID : String) (lead r : List Node) :
    List Node × List Node :=
  match r with
  | [] => ([], [])
  | n1 :: tl =>
    if isEOFTok n1 then ([], [])
    else
      let s1 := scanNonPseudo (n1 :: tl)
      let raw := lead ++ s1.1
      let targetSelector :=
        if raw.isEmpty then [Node.delim "*"] else trimTrailingWhitespace raw
      let s2 := scanPseudo s1.2
      let rec1 := transformSelectorGo containerUID (s2.2.take 1) (s2.2.drop 1)
      (targetSelector ++ rec1.1,
       targetSelector ++ whereSuffix containerUID ++ s2.1 ++ rec1.2)
termination_by r.length
decreasing_by
  exact transformSelectorGo_dec _ _

/-- transform.ts transformSelector: rewrites one qualified rule's prelude,
returning the element-targeting selector and the rewritten style selector. -/
def transformSelector (nodes : List Node) (containerUID : String) :
    List Node × List Node :=
  transformSelectorGo containerUID [] nodes

/-! ## Declarative description of the selector split (for claim C4)

The claim describes transformSelector per comma-separated selector; the
functions below state that description directly: split the prelude at the
top-level commas, split every segment at the first pseudo-element boundary,
rewrite each segment as prefix, uid-attribute match, suffix. -/

def isCommaTok : Node → Bool
  | .comma => true
  | _ => false

/-- Split a token list at every top-level comma token. -/
def splitOnComma : List Node → List (List Node)
  | [] => [[]]
  | n :: rest =>
    if isCommaTok n then [] :: splitOnComma rest
    else
      match splitOnComma rest with
      | s :: ss => (n :: s) :: ss
      | [] => [[n]]

/-- Drop a trailing empty segment (the cursor loop exits at EOF right after
consuming a final comma, so a trailing empty segment is never processed). -/
def dropLastEmpty (segs : List (List Node)) : List (List Node) :=
  match segs.getLast? with
  | some [] => segs.dropLast
  | _ => segs

/-- Split one comma-free segment at the first of: end of selector, a double
colon, or a single-colon legacy pseudo-element (the claim's split point).
This is the same boundary test the code's inner scan uses. -/
def splitAtPseudoStart (seg : List Node) : List Node × List Node :=
  scanNonPseudo seg

/-- Element-targeting prefix of one segment under the amended reading: the
comma separator is carried at the head of every non-first segment's raw
prefix, so only a first-segment empty prefix is replaced by `*`. -/
def amendedSegmentPrefix (first : Bool) (pre : List Node) : List Node :=
  let raw := if first then pre else Node.comma :: pre
  if raw.isEmpty then [Node.delim "*"] else trimTrailingWhitespace raw

def transformSelectorAmendedGo (uid : String) (first : Bool) :
    List (List Node) → List Node × List Node
  | [] => ([], [])
  | seg :: rest =>
    let s := splitAtPseudoStart seg
    let target := amendedSegmentPrefix first s.1
    let r := transformSelectorAmendedGo uid false rest
    (target ++ r.1, target ++ whereSuffix uid ++ s.2 ++ r.2)

/-- Amended per-claim description of transformSelector. -/
def transformSelectorAmended (nodes : List Node) (uid : String) :
    List Node × List Node :=
  transformSelectorAmendedGo uid true (dropLastEmpty (splitOnComma nodes))

/-- The claim as stated: EVERY comma-separated selector with an empty
element-targeting prefix has the prefix replaced by `*`; the segments are
re-joined with comma separators. -/
def transformSelectorClaimedGo (uid : String) :
    List (List Node) → List Node × List Node
  | [] => ([], [])
  | seg :: rest =>
    let s := splitAtPseudoStart seg
    let target := if s.1.isEmpty then [Node.delim "*"] else trimTrailingWhitespace s.1
    let r := transformSelectorClaimedGo uid rest
    match rest with
    | [] => (target ++ r.1, target ++ whereSuffix uid ++ s.2 ++ r.2)
    | _ :: _ =>
      (target ++ Node.comma :: r.1,
       target ++ whereSuffix uid ++ s.2 ++ Node.comma :: r.2)

def transformSelectorClaimed (nodes : List Node) (uid : String) :
    List Node × List Node :=
  transformSelectorClaimedGo uid (dropLastEmpty (splitOnComma nodes))

/-! ### Equivalence of the cursor loop with the declarative description -/

/-- No comma and no EOF token in a list (comma-free segments of an EOF-free
token list). -/
def noCommaEof (l : List Node) : Bool := l.all (fun n => !isEndOfSelector n)

/-- No EOF token at the top level of a token list (token lists produced by
the tokenizer never contain the EOF sentinel). -/
def noEofTok (l : List Node) : Bool := l.all (fun n => !isEOFTok n)

def hasCommaTok (l : List Node) : Bool := l.any isCommaTok

theorem isPseudoElementStart_comma_eof (n : Node) :
    isPseudoElementStart n .comma = isPseudoElementStart n .eof := by
  cases n <;> rfl

theorem headE_append_comma (seg' rest : List Node) (n : Node) :
    isPseudoElementStart n (headE (seg' ++ .comma :: rest)) =
      isPseudoElementStart n (headE seg') := by
  cases seg' with
  | nil => simpa [headE] using isPseudoElementStart_comma_eof n
  | cons a t => simp [headE]

theorem scanNonPseudo_of_noCommaEof_append (seg rest : List Node)
    (h : noCommaEof seg = true) :
    scanNonPseudo (seg ++ .comma :: rest) =
      ((scanNonPseudo seg).1, (scanNonPseudo seg).2 ++ .comma :: rest) := by
  induction seg with
  | nil => simp [scanNonPseudo, headE, isPseudoElementStart, isEndOfSelector]
  | cons n seg' ih =>
    have hn : isEndOfSelector n = false := by
      have := (List.all_eq_true.mp h) n (by simp)
      simpa using this
    have hs' : noCommaEof seg' = true := by
      refine List.all_eq_true.mpr ?_
      intro x hx
      exact (List.all_eq_true.mp h) x (by simp [hx])
    by_cases hps : isPseudoElementStart n (headE seg') = true
    · simp only [List.cons_append, scanNonPseudo, List.append_eq]
      rw [headE_append_comma seg' rest n]
      simp [hps]
    · simp only [List.cons_append, scanNonPseudo, List.append_eq]
      rw [headE_append_comma seg' rest n]
      simp only [hps, if_false, ih hs']
      rcases hsc : scanNonPseudo seg' with ⟨p, s⟩
      simp

theorem scanPseudo_of_noCommaEof (l : List Node) (h : noCommaEof l = true) :
    scanPseudo l = (l, []) := by
  induction l with
  | nil => simp [scanPseudo]
  | cons n t ih =>
    have hn : isEndOfSelector n = false := by
      have := (List.all_eq_true.mp h) n (by simp)
      simpa using this
    have ht : noCommaEof t = true := by
      refine List.all_eq_true.mpr ?_
      intro x hx
      exact (List.all_eq_true.mp h) x (by simp [hx])
    simp [scanPseudo, hn, ih ht]

theorem scanPseudo_of_noCommaEof_append (s rest : List Node)
    (h : noCommaEof s = true) :
    scanPseudo (s ++ .comma :: rest) = (s, .comma :: rest) := by
  induction s with
  | nil => simp [scanPseudo, isEndOfSelector]
  | cons n t ih =>
    have hn : isEndOfSelector n = false := by
      have := (List.all_eq_true.mp h) n (by simp)
      simpa using this
    have ht : noCommaEof t = true := by
      refine List.all_eq_true.mpr ?_
      intro x hx
      exact (List.all_eq_true.mp h) x (by simp [hx])
    simp [scanPseudo, hn, ih ht]

theorem splitOnComma_ne_nil (l : List Node) : splitOnComma l ≠ [] := by
  cases l with
  | nil => simp [splitOnComma]
  | cons n rest =>
    simp only [splitOnComma]
    split
    · simp
    · split <;> simp

theorem isCommaTok_eq_true_iff (n : Node) : isCommaTok n = true ↔ n = .comma := by
  cases n <;> simp [isCommaTok]

theorem isEndOfSelector_false_iff (n : Node) :
    isEndOfSelector n = false ↔ (isEOFTok n = false ∧ isCommaTok n = false) := by
  cases n <;> simp [isEndOfSelector, isEOFTok, isCommaTok]

theorem hasCommaTok_eq_false_iff (l : List Node) :
    hasCommaTok l = false ↔ ∀ x ∈ l, isCommaTok x = false := by
  rw [hasCommaTok, ← Bool.not_eq_true, List.any_eq_true]
  simp

theorem noCommaEof_iff (l : List Node) :
    noCommaEof l = true ↔ (noEofTok l = true ∧ hasCommaTok l = false) := by
  simp only [noCommaEof, noEofTok, List.all_eq_true, Bool.not_eq_true',
    isEndOfSelector_false_iff, hasCommaTok_eq_false_iff]
  constructor
  · intro h
    exact ⟨fun x hx => (h x hx).1, fun x hx => (h x hx).2⟩
  · rintro ⟨h1, h2⟩ x hx
    exact ⟨h1 x hx, h2 x hx⟩

theorem hasComma_decomp (l : List Node) (h : hasCommaTok l = true) :
    ∃ seg rest, l = seg ++ .comma :: rest ∧ hasCommaTok seg = false := by
  induction l with
  | nil => simp [hasCommaTok] at h
  | cons n t ih =>
    by_cases hn : isCommaTok n = true
    · exact ⟨[], t, by simp [(isCommaTok_eq_true_iff n).mp hn], by simp [hasCommaTok]⟩
    · have ht : hasCommaTok t = true := by
        have h' : (isCommaTok n || List.any t isCommaTok) = true := by
          simp only [hasCommaTok, List.any_cons] at h
          exact h
        rcases (Bool.or_eq_true _ _).mp h' with h1 | h1
        · exact absurd h1 hn
        · exact h1
      obtain ⟨seg, rest, heq, hseg⟩ := ih ht
      refine ⟨n :: seg, rest, by simp [heq], ?_⟩
      rw [hasCommaTok_eq_false_iff] at hseg ⊢
      intro x hx
      rcases List.mem_cons.mp hx with rfl | hx2
      · simpa using hn
      · exact hseg x hx2

theorem splitOnComma_of_noComma (l : List Node) (h : hasCommaTok l = false) :
    splitOnComma l = [l] := by
  induction l with
  | nil => simp [splitOnComma]
  | cons n t ih =>
    have hn : isCommaTok n = false := by
      simp only [hasCommaTok, List.any_cons, Bool.or_eq_false_iff] at h
      exact h.1
    have ht : hasCommaTok t = false := by
      simp only [hasCommaTok, List.any_cons, Bool.or_eq_false_iff] at h
      exact h.2
    simp [splitOnComma, hn, ih ht]

theorem splitOnComma_append_comma (seg rest : List Node)
    (h : hasCommaTok seg = false) :
    splitOnComma (seg ++ .comma :: rest) = seg :: splitOnComma rest := by
  induction seg with
  | nil => simp [splitOnComma, isCommaTok]
  | cons n t ih =>
    have hn : isCommaTok n = false := by
      simp only [hasCommaTok, List.any_cons, Bool.or_eq_false_iff] at h
      exact h.1
    have ht : hasCommaTok t = false := by
      simp only [hasCommaTok, List.any_cons, Bool.or_eq_false_iff] at h
      exact h.2
    simp only [List.cons_append, splitOnComma, hn, Bool.false_eq_true, if_false,
      List.append_eq]
    rw [ih ht]

theorem dropLastEmpty_cons (seg : List Node) (t : List (List Node)) (ht : t ≠ []) :
    dropLastEmpty (seg :: t) = seg :: dropLastEmpty t := by
  cases t with
  | nil => exact absurd rfl ht
  | cons a t' =>
    simp only [dropLastEmpty, List.getLast?_cons_cons]
    rcases hga : (a :: t').getLast? with _ | gl
    · simp at hga
    · cases gl with
      | nil => simp
      | cons x xs => simp

theorem dropLastEmpty_singleton_cons (n : Node) (l : List Node) :
    dropLastEmpty [n :: l] = [n :: l] := by
  simp [dropLastEmpty]

theorem noCommaEof_of_parts (l : List Node) (h : noCommaEof l = true) :
    noCommaEof (scanNonPseudo l).1 = true ∧ noCommaEof (scanNonPseudo l).2 = true := by
  have happ := scanNonPseudo_append_eq l
  rw [← happ] at h
  simpa [noCommaEof, List.all_append] using h

theorem noEofTok_append_decomp (seg rest : List Node) (n : Node)
    (h : noEofTok (seg ++ n :: rest) = true) :
    noEofTok seg = true ∧ noEofTok rest = true := by
  simp only [noEofTok, List.all_append, List.all_cons, Bool.and_eq_true] at h
  exact ⟨h.1, h.2.2⟩

theorem lead_append_eq (first : Bool) (p : List Node) :
    (if first then ([] : List Node) else [Node.comma]) ++ p =
      (if first then p else Node.comma :: p) := by
  cases first <;> simp

/-- The cursor-based transformSelector loop computes exactly the amended
per-segment description, for any EOF-free selector token list. -/
theorem transformSelectorGo_eq_amended :
    ∀ (fuel : ℕ) (nodes : List Node), nodes.length ≤ fuel →
      noEofTok nodes = true → ∀ (uid : String) (first : Bool),
      transformSelectorGo uid (if first then [] else [Node.comma]) nodes =
        transformSelectorAmendedGo uid first (dropLastEmpty (splitOnComma nodes)) := by
  intro fuel
  induction fuel with
  | zero =>
    intro nodes hlen _ uid first
    have hnil : nodes = [] := List.eq_nil_of_length_eq_zero (Nat.le_zero.mp hlen)
    subst hnil
    simp [transformSelectorGo, splitOnComma, dropLastEmpty,
      transformSelectorAmendedGo]
  | succ fuel ih =>
    intro nodes hlen hno uid first
    cases hnodes : nodes with
    | nil =>
      simp [transformSelectorGo, splitOnComma, dropLastEmpty,
        transformSelectorAmendedGo]
    | cons n1 tl =>
      subst hnodes
      have hn1 : isEOFTok n1 = false := by
        have := (List.all_eq_true.mp hno) n1 (by simp)
        simpa using this
      by_cases hc : hasCommaTok (n1 :: tl) = true
      · obtain ⟨seg, rest, heq, hsegc⟩ := hasComma_decomp _ hc
        have hsege : noEofTok seg = true ∧ noEofTok rest = true := by
          rw [heq] at hno
          exact noEofTok_append_decomp _ _ _ hno
        have hsegce : noCommaEof seg = true :=
          (noCommaEof_iff seg).mpr ⟨hsege.1, hsegc⟩
        have hrestlen : rest.length ≤ fuel := by
          have h2 := congrArg List.length heq
          simp only [List.length_cons, List.length_append] at h2 hlen
          omega
        -- left-hand side: unfold one iteration of the loop
        rw [transformSelectorGo]
        simp only [hn1, Bool.false_eq_true, if_false]
        rw [heq]
        rw [scanNonPseudo_of_noCommaEof_append seg rest hsegce]
        rw [scanPseudo_of_noCommaEof_append _ rest (noCommaEof_of_parts seg hsegce).2]
        -- right-hand side: expose the first segment
        rw [splitOnComma_append_comma seg rest hsegc,
          dropLastEmpty_cons seg _ (splitOnComma_ne_nil rest),
          transformSelectorAmendedGo]
        have hrec := ih rest hrestlen hsege.2 uid false
        simp only [Bool.false_eq_true, if_false] at hrec
        simp only [List.take_cons, List.drop_succ_cons, List.take_zero,
          List.drop_zero]
        simp only [splitAtPseudoStart, amendedSegmentPrefix]
        cases first <;> simp [hrec]
      · have hnc : noCommaEof (n1 :: tl) = true :=
          (noCommaEof_iff _).mpr ⟨hno, by simpa using hc⟩
        rw [transformSelectorGo]
        simp only [hn1, Bool.false_eq_true, if_false]
        rw [scanPseudo_of_noCommaEof _ (noCommaEof_of_parts _ hnc).2]
        rw [splitOnComma_of_noComma _ (by simpa using hc),
          dropLastEmpty_singleton_cons, transformSelectorAmendedGo]
        simp only [List.take_nil, List.drop_nil, transformSelectorGo,
          transformSelectorAmendedGo]
        simp only [splitAtPseudoStart, amendedSegmentPrefix]
        cases first <;> simp

/-- transformSelector agrees with the amended declarative description. -/
theorem transformSelector_eq_amended (nodes : List Node) (uid : String)
    (h : noEofTok nodes = true) :
    transformSelector nodes uid = transformSelectorAmended nodes uid := by
  have := transformSelectorGo_eq_amended nodes.length nodes le_rfl h uid true
  simpa [transformSelector, transformSelectorAmended] using this

/-! ## Condition grammar (utils/parse-media-query.ts, src/unnamed/part_001)

The source threads one mutable 1-token-lookahead cursor; the embedding
threads the remaining token list and returns it with the result.  The
source's parseQueryInParens consumes exactly one node from the cursor and
inspects only that node, so it is modelled as a function of that node; the
consumption itself happens in the caller (parseQueryConditionTail). -/

inductive GenericExpressionNode where
  | negate (value : GenericExpressionNode)
  | conjunction (left right : GenericExpressionNode)
  | disjunction (left right : GenericExpressionNode)
  | literal (value : Node)

/-- Modelled from the spec: utils/css.ts consumeWhitespace advances the
cursor past whitespace tokens. -/
def consumeWhitespaceL (l : List Node) : List Node := l.dropWhile isWhitespaceTok

/-- The part_001 lines 67-76 guard: at top level the condition must start
with a function or a parenthesized block. -/
def isFuncOrParenBlockTok : Node → Bool
  | .functionNode _ _ => true
  | .blockNode src _ _ =>
    match src with
    | .leftParenthesis => true
    | _ => false
  | _ => false

theorem length_dropWhileNode_le (p : Node → Bool) (l : List Node) :
    (l.dropWhile p).length ≤ l.length := by
  induction l with
  | nil => simp
  | cons a t ih =>
    by_cases hp : p a = true
    · simp only [List.dropWhile_cons, hp, if_true]
      simp only [List.length_cons]
      omega
    · simp [List.dropWhile_cons, hp]

theorem sizeOf_dropWhile_le (p : Node → Bool) (l : List Node) :
    sizeOf (l.dropWhile p) ≤ sizeOf l := by
  induction l with
  | nil => simp
  | cons a t ih =>
    by_cases hp : p a = true
    · simp only [List.dropWhile_cons, hp, if_true]
      have : sizeOf t ≤ sizeOf (a :: t) := by
        simp only [List.cons.sizeOf_spec]
        omega
      omega
    · simp [List.dropWhile_cons, hp]

theorem sizeOf_drop_one_le (l : List Node) : sizeOf (l.drop 1) ≤ sizeOf l := by
  cases l with
  | nil => simp
  | cons a t =>
    simp only [List.drop_succ_cons, List.drop_zero, List.cons.sizeOf_spec]
    omega

theorem cond_to_tail_not_dec (l : List Node) :
    3 * sizeOf (consumeWhitespaceL ((consumeWhitespaceL l).drop 1)) + 1 <
      3 * sizeOf l + 2 := by
  have h1 := sizeOf_dropWhile_le isWhitespaceTok l
  have h2 := sizeOf_drop_one_le (l.dropWhile isWhitespaceTok)
  have h3 := sizeOf_dropWhile_le isWhitespaceTok ((l.dropWhile isWhitespaceTok).drop 1)
  simp only [consumeWhitespaceL] at *
  omega

theorem cond_to_tail_dec (l : List Node) :
    3 * sizeOf (consumeWhitespaceL l) + 1 < 3 * sizeOf l + 2 := by
  have h1 := sizeOf_dropWhile_le isWhitespaceTok l
  simp only [consumeWhitespaceL] at *
  omega

theorem tail_to_inparens_dec (n : Node) (rest : List Node) :
    3 * sizeOf n < 3 * sizeOf (n :: rest) + 1 := by
  simp only [List.cons.sizeOf_spec]
  omega

theorem tail_to_cond_dec (n : Node) (rest : List Node) :
    3 * sizeOf (consumeWhitespaceL ((consumeWhitespaceL rest).drop 1)) + 2 <
      3 * sizeOf (n :: rest) + 1 := by
  have h1 := sizeOf_dropWhile_le isWhitespaceTok rest
  have h2 := sizeOf_drop_one_le (rest.dropWhile isWhitespaceTok)
  have h3 := sizeOf_dropWhile_le isWhitespaceTok ((rest.dropWhile isWhitespaceTok).drop 1)
  simp only [consumeWhitespaceL] at *
  simp only [List.cons.sizeOf_spec]
  omega

theorem inparens_to_cond_dec (src : Node) (bt : BlockType) (vals : List Node) :
    3 * sizeOf vals + 2 < 3 * sizeOf (Node.blockNode src bt vals) := by
  simp only [Node.blockNode.sizeOf_spec]
  omega

mutual

/-- part_001 parseQueryCondition (lines 57-137). -/
def parseQueryCondition (l : List Node) (topLevel : Bool) (andOr : Option String) :
    Option GenericExpressionNode × List Node :=
  let l1 := consumeWhitespaceL l
  if topLevel ∧ isFuncOrParenBlockTok (headE l1) = false then (none, l1)
  else
    match headE l1 with
    | .ident v =>
      if strLower v = "not" then
        parseQueryConditionTail (consumeWhitespaceL (l1.drop 1)) true topLevel andOr
      else (none, l1)
    | _ => parseQueryConditionTail l1 false topLevel andOr
termination_by 3 * sizeOf l + 2
decreasing_by
  · exact cond_to_tail_not_dec l
  · exact cond_to_tail_dec l

/-- Continuation of parseQueryCondition after the optional `not` keyword:
consume the in-parens term and then the connective-joined terms. -/
def parseQueryConditionTail (l2 : List Node) (negated topLevel : Bool)
    (andOr : Option String) : Option GenericExpressionNode × List Node :=
  match l2 with
  | [] => (none, [])
  | n :: rest =>
    match parseQueryInParens n with
    | none => (none, rest)
    | some left0 =>
      let left := if negated then GenericExpressionNode.negate left0 else left0
      let l3 := consumeWhitespaceL rest
      if topLevel ∧ isEOFTok (headE l3) = false then (none, l3)
      else
        match headE l3 with
        | .ident v =>
          let k := strLower v
          let l4 := consumeWhitespaceL (l3.drop 1)
          if (k ≠ "and" ∧ k ≠ "or") ∨ (andOr ≠ none ∧ some k ≠ andOr) then
            (none, l4)
          else
            match parseQueryCondition l4 false (some k) with
            | (none, l5) => (none, l5)
            | (some right, l5) =>
              (some (if k = "and" then GenericExpressionNode.conjunction left right
                     else GenericExpressionNode.disjunction left right), l5)
        | _ =>
          if isEOFTok (headE l3) then (some left, l3) else (none, l3)
termination_by 3 * sizeOf l2 + 1
decreasing_by
  · exact tail_to_inparens_dec _ _
  · exact tail_to_cond_dec _ _

/-- part_001 parseQueryInParens (lines 139-168), as a function of the single
node the source consumes from the cursor. -/
def parseQueryInParens (n : Node) : Option GenericExpressionNode :=
  match n with
  | .blockNode src bt vals =>
    match src with
    | .leftParenthesis =>
      match parseQueryCondition vals false none with
      | (some c, _) => some c
      | (none, _) => some (.literal (.blockNode src bt vals))
    | _ => none
  | .functionNode name vals => some (.literal (.functionNode name vals))
  | _ => none
termination_by 3 * sizeOf n
decreasing_by
  · exact inparens_to_cond_dec _ _ _

end

/-- part_001 consumeMediaCondition. -/
def consumeMediaCondition (l : List Node) :
    Option GenericExpressionNode × List Node :=
  parseQueryCondition l false none

/-- part_001 parseMediaCondition (fresh cursor over the node list). -/
def parseMediaCondition (nodes : List Node) : Option GenericExpressionNode :=
  (consumeMediaCondition nodes).1

/-- An in-parens term of the condition grammar: the two node shapes
parseQueryInParens accepts (a parenthesised block or a function node). -/
def goodTerm : Node → Bool
  | .blockNode .leftParenthesis _ _ => true
  | .functionNode _ _ => true
  | _ => false

/-- The token form of connective-joined in-parens terms following the first
term: keyword, term, keyword, term, ... -/
def connChainSuffix (ps : List (String × Node)) : List Node :=
  ps.flatMap (fun p => [Node.ident p.1, p.2])

/-- Token chain of a condition: first term, then connective-joined terms. -/
def chainTokens (b : Node) (ps : List (String × Node)) : List Node :=
  b :: connChainSuffix ps

theorem consumeWhitespaceL_cons (n : Node) (l : List Node)
    (h : isWhitespaceTok n = false) : consumeWhitespaceL (n :: l) = n :: l := by
  simp [consumeWhitespaceL, List.dropWhile, h]

theorem goodTerm_not_ws (n : Node) (h : goodTerm n = true) :
    isWhitespaceTok n = false := by
  cases n <;> simp_all [goodTerm, isWhitespaceTok]

theorem parseQueryInParens_goodTerm (n : Node) (h : goodTerm n = true) :
    ∃ e, parseQueryInParens n = some e := by
  cases n with
  | blockNode src bt vals =>
    cases src <;> try simp [goodTerm] at h
    rw [parseQueryInParens]
    rcases hp : parseQueryCondition vals false none with ⟨og, l5⟩
    cases og with
    | none => exact ⟨_, rfl⟩
    | some c => exact ⟨_, rfl⟩
  | functionNode nm vals => exact ⟨_, by rw [parseQueryInParens]⟩
  | eof => simp [goodTerm] at h
  | whitespace => simp [goodTerm] at h
  | comma => simp [goodTerm] at h
  | colon => simp [goodTerm] at h
  | semicolon => simp [goodTerm] at h
  | leftParenthesis => simp [goodTerm] at h
  | leftSquareBracket => simp [goodTerm] at h
  | leftBrace => simp [goodTerm] at h
  | ident v => simp [goodTerm] at h
  | delim v => simp [goodTerm] at h
  | string v => simp [goodTerm] at h
  | number v f => simp [goodTerm] at h
  | dimension v u f => simp [goodTerm] at h
  | atRuleNode nm p v => simp [goodTerm] at h
  | qualifiedRuleNode p v => simp [goodTerm] at h
  | declarationNode nm v i => simp [goodTerm] at h

/-- A good first term reduces the condition parser to its continuation. -/
theorem parseQueryCondition_goodTerm_step (b : Node) (rest : List Node)
    (a : Option String) (h : goodTerm b = true) :
    parseQueryCondition (b :: rest) false a =
      parseQueryConditionTail (b :: rest) false false a := by
  rw [parseQueryCondition]
  rw [consumeWhitespaceL_cons _ _ (goodTerm_not_ws b h)]
  simp only [show ((false : Bool) = true) ↔ False from by simp, false_and,
    if_false]
  cases b <;> simp_all [goodTerm, headE]

/-- Once a connective keyword is bound for a nesting level, a chain holding
any different keyword fails to parse. -/
theorem parseQueryConditionTail_mixed :
    ∀ (ps : List (String × Node)) (b : Node) (k : String),
      goodTerm b = true →
      (∀ p ∈ ps, goodTerm p.2 = true ∧ (p.1 = "and" ∨ p.1 = "or")) →
      (∃ j ∈ ps.map Prod.fst, j ≠ k) →
      (parseQueryConditionTail (b :: connChainSuffix ps) false false
        (some k)).1 = none := by
  intro ps
  induction ps with
  | nil =>
    intro b k hb hall hex
    simp at hex
  | cons p ps ih =>
    rcases p with ⟨k2, b2⟩
    intro b k hb hall hex
    have hb2 : goodTerm b2 = true := (hall (k2, b2) (by simp)).1
    have hk2 : k2 = "and" ∨ k2 = "or" := (hall (k2, b2) (by simp)).2
    obtain ⟨e, he⟩ := parseQueryInParens_goodTerm b hb
    rw [show connChainSuffix ((k2, b2) :: ps) =
      .ident k2 :: b2 :: connChainSuffix ps from rfl]
    rw [parseQueryConditionTail]
    rw [he]
    have hwid : isWhitespaceTok (Node.ident k2) = false := rfl
    have hlow : strLower k2 = k2 := by
      rcases hk2 with h | h <;> subst h <;> decide
    simp only [show ((false : Bool) = true) ↔ False from by simp, false_and,
      if_false, List.drop_succ_cons, List.drop_zero]
    rw [consumeWhitespaceL_cons _ _ hwid]
    simp only [headE, hlow, List.drop_succ_cons, List.drop_zero]
    rw [consumeWhitespaceL_cons _ _ (goodTerm_not_ws b2 hb2)]
    by_cases hkk : k2 = k
    · subst hkk
      have hcond : ¬ ((k2 ≠ "and" ∧ k2 ≠ "or") ∨
          ((some k2 : Option String) ≠ none ∧ some k2 ≠ some k2)) := by
        rcases hk2 with h | h <;> simp [h]
      rw [if_neg hcond]
      have hexps : ∃ j ∈ ps.map Prod.fst, j ≠ k2 := by
        rcases hex with ⟨j, hj, hjne⟩
        simp only [List.map_cons, List.mem_cons] at hj
        rcases hj with rfl | hjm
        · exact absurd rfl hjne
        · exact ⟨j, hjm, hjne⟩
      have hcond1 : (parseQueryCondition (b2 :: connChainSuffix ps) false
          (some k2)).1 = none := by
        rw [parseQueryCondition_goodTerm_step b2 (connChainSuffix ps)
          (some k2) hb2]
        exact ih b2 k2 hb2 (fun p hp => hall p (by simp [hp])) hexps
      rcases hq : parseQueryCondition (b2 :: connChainSuffix ps) false
          (some k2) with ⟨og, l5⟩
      have hog : og = none := by rw [hq] at hcond1; exact hcond1
      subst hog
      rfl
    · have hcond : ((k2 ≠ "and" ∧ k2 ≠ "or") ∨
          ((some k : Option String) ≠ none ∧ some k2 ≠ some k)) := by
        exact Or.inr ⟨by simp, fun h => hkk (Option.some.inj h)⟩
      rw [if_pos hcond]

/-- Mixing `and` and `or` at one level without parentheses fails to parse. -/
theorem parseMediaCondition_mixed (b : Node) (ps : List (String × Node))
    (hb : goodTerm b = true)
    (hall : ∀ p ∈ ps, goodTerm p.2 = true ∧ (p.1 = "and" ∨ p.1 = "or"))
    (hand : "and" ∈ ps.map Prod.fst) (hor : "or" ∈ ps.map Prod.fst) :
    parseMediaCondition (chainTokens b ps) = none := by
  cases ps with
  | nil => simp at hand
  | cons p ps =>
    rcases p with ⟨k1, b1⟩
    have hb1 : goodTerm b1 = true := (hall (k1, b1) (by simp)).1
    have hk1 : k1 = "and" ∨ k1 = "or" := (hall (k1, b1) (by simp)).2
    obtain ⟨e, he⟩ := parseQueryInParens_goodTerm b hb
    have hexps : ∃ j ∈ ps.map Prod.fst, j ≠ k1 := by
      rcases hk1 with h | h
      · subst h
        simp only [List.map_cons, List.mem_cons] at hor
        rcases hor with h1 | h1
        · exact absurd h1.symm (by decide)
        · exact ⟨"or", h1, by decide⟩
      · subst h
        simp only [List.map_cons, List.mem_cons] at hand
        rcases hand with h1 | h1
        · exact absurd h1.symm (by decide)
        · exact ⟨"and", h1, by decide⟩
    show (parseQueryCondition (chainTokens b ((k1, b1) :: ps)) false none).1 = none
    rw [show chainTokens b ((k1, b1) :: ps) =
      b :: .ident k1 :: b1 :: connChainSuffix ps from rfl]
    rw [parseQueryCondition_goodTerm_step b _ none hb]
    rw [parseQueryConditionTail]
    rw [he]
    have hwid : isWhitespaceTok (Node.ident k1) = false := rfl
    have hlow : strLower k1 = k1 := by
      rcases hk1 with h | h <;> subst h <;> decide
    simp only [show ((false : Bool) = true) ↔ False from by simp, false_and,
      if_false, List.drop_succ_cons, List.drop_zero]
    rw [consumeWhitespaceL_cons _ _ hwid]
    simp only [headE, hlow, List.drop_succ_cons, List.drop_zero]
    rw [consumeWhitespaceL_cons _ _ (goodTerm_not_ws b1 hb1)]
    have hcond : ¬ ((k1 ≠ "and" ∧ k1 ≠ "or") ∨
        ((none : Option String) ≠ none ∧ some k1 ≠ none)) := by
      rcases hk1 with h | h <;> simp [h]
    rw [if_neg hcond]
    have hcond1 : (parseQueryCondition (b1 :: connChainSuffix ps) false
        (some k1)).1 = none := by
      rw [parseQueryCondition_goodTerm_step b1 (connChainSuffix ps)
        (some k1) hb1]
      exact parseQueryConditionTail_mixed ps b1 k1 hb1
        (fun p hp => hall p (by simp [hp])) hexps
    rcases hq : parseQueryCondition (b1 :: connChainSuffix ps) false
        (some k1) with ⟨og, l5⟩
    have hog : og = none := by rw [hq] at hcond1; exact hcond1
    subst hog
    rfl

/-! ## parser.ts: container rule and value parsing -/

inductive SizeFeature where
  | width
  | height
  | inlineSize
  | blockSize
  | aspectRatio
  | orientation
deriving DecidableEq, Repr

/-- evaluate.ts Value (the variants parser.ts constructs). -/
inductive Value where
  | number (value : JSNumber)
  | dimension (value : JSNumber) (unit : String)
  | orientation (value : String)
  | unknown
deriving DecidableEq, Repr

/-- evaluate.ts ExpressionNode (condition AST). -/
inductive ExpressionNode where
  | negate (value : ExpressionNode)
  | conjunction (left right : ExpressionNode)
  | disjunction (left right : ExpressionNode)
  | comparison (op : String) (left right : ExpressionNode)
  | feature (f : SizeFeature)
  | value (v : Value)
deriving DecidableEq, Repr

/-- parser.ts consumeNumber: consume one node; parseInt of a number token,
null for any other node. -/
def consumeNumber (l : List Node) : Option JSNumber × List Node :=
  match l with
  | .number v _ :: rest => (some (jsParseInt v), rest)
  | _ :: rest => (none, rest)
  | [] => (none, [])

/-- parser.ts consumeMaybeSeparatedByDelim (lines 51-81).  The A-component
is returned only when consumeA succeeded (the source checks first === null);
the B-component stays null when the delimiter is absent or consumeB fails. -/
def consumeMaybeSeparatedByDelim {A B : Type}
    (d : String)
    (consumeA : List Node → Option A × List Node)
    (consumeB : List Node → Option B × List Node)
    (l : List Node) : Option (A × Option B) × List Node :=
  match consumeA l with
  | (none, l1) => (none, l1)
  | (some first, l1) =>
    let l2 := consumeWhitespaceL l1
    match headE l2 with
    | .delim v =>
      if v ≠ d then (none, l2)
      else
        let l3 := consumeWhitespaceL (l2.drop 1)
        match consumeB l3 with
        | (second, l4) =>
          let l5 := consumeWhitespaceL l4
          if isEOFTok (headE l5) then (some (first, second), l5) else (none, l5)
    | _ =>
      if isEOFTok (headE l2) then (some (first, none), l2) else (none, l2)

/-- parser.ts consumeNumberOrRatio (lines 88-105): numerator and denominator
are parseInt results; a missing denominator defaults to 1; the value is the
JS quotient. -/
def consumeNumberOrRatio (l : List Node) : Option Value × List Node :=
  match consumeMaybeSeparatedByDelim "/" consumeNumber consumeNumber l with
  | (none, l') => (none, l')
  | (some (numerator, secondOpt), l') =>
    let denominator :=
      match secondOpt with
      | some s => s
      | none => JSNumber.num 1
    (some (Value.number (numerator.div denominator)), l')

/-- Shared tail of parser.ts consumeValue: whitespace then EOF check, then
wrap the value. -/
def finishValue (v : Value) (l : List Node) : Option ExpressionNode :=
  let l' := consumeWhitespaceL l
  if isEOFTok (headE l') then some (ExpressionNode.value v) else none

/-- parser.ts consumeValue (lines 107-149): number (possibly a ratio),
dimension (parseInt plus lower-cased unit) or orientation keyword; anything
else is null. -/
def consumeValue (nodes : List Node) : Option ExpressionNode :=
  let l1 := consumeWhitespaceL nodes
  match l1 with
  | .number _ _ :: _ =>
    -- reconsume, then read a number or ratio from the same position
    match consumeNumberOrRatio l1 with
    | (none, _) => none
    | (some v, l2) => finishValue v l2
  | .dimension v u _ :: rest =>
    finishValue (Value.dimension (jsParseInt v) (strLower u)) rest
  | .ident v :: rest =>
    if strLower v = "landscape" then finishValue (Value.orientation "landscape") rest
    else if strLower v = "portrait" then finishValue (Value.orientation "portrait") rest
    else none
  | _ => none

/-- parser.ts isValidContainerName. -/
def isValidContainerName (name : String) : Bool :=
  let ln := strLower name
  !(decide (ln = "none") || decide (ln = "and") || decide (ln = "not") ||
    decide (ln = "or") || decide (ln = "normal") || decide (ln = "auto"))

/-- Loop of parser.ts consumeContainerNames (lines 227-242). -/
def consumeContainerNamesGo (l : List Node) (acc : List String) :
    List String × List Node :=
  match h : consumeWhitespaceL l with
  | .ident v :: rest =>
    if isValidContainerName v then consumeContainerNamesGo rest (acc ++ [v])
    else (acc, consumeWhitespaceL l)
  | _ => (acc, consumeWhitespaceL l)
termination_by l.length
decreasing_by
  have h1 := length_dropWhileNode_le isWhitespaceTok l
  simp only [consumeWhitespaceL] at h h1
  rw [h] at h1
  simp only [List.length_cons] at h1
  omega

/-- parser.ts consumeContainerNames (lines 220-245). -/
def consumeContainerNames (l : List Node) (expectEof : Bool) :
    Option (List String) × List Node :=
  let r := consumeContainerNamesGo l []
  if expectEof ∧ isEOFTok (headE r.2) = false then (none, r.2)
  else (some r.1, r.2)

/-- parser.ts ContainerRule. -/
structure ContainerRule where
  names : List String
  condition : ExpressionNode
deriving DecidableEq, Repr

/-- parser.ts transformExpression (lines 321-364) on a non-null node.
parseSizeFeature depends on utils/parse-media-feature.ts, which is not
under src/, so it is threaded as the parameter psf (its result only
selects which non-null expression a block literal becomes). -/
def transformExpressionGE (psf : List Node → Option ExpressionNode) :
    GenericExpressionNode → Option ExpressionNode
  | .negate v =>
    match transformExpressionGE psf v with
    | some x => some (.negate x)
    | none => none
  | .conjunction l r =>
    match transformExpressionGE psf l, transformExpressionGE psf r with
    | some a, some b => some (.conjunction a b)
    | _, _ => none
  | .disjunction l r =>
    match transformExpressionGE psf l, transformExpressionGE psf r with
    | some a, some b => some (.disjunction a b)
    | _, _ => none
  | .literal n =>
    match n with
    | .blockNode _ _ vals =>
      match psf vals with
      | some e => some e
      | none => some (.value .unknown)
    | _ => some (.value .unknown)

def transformExpression (psf : List Node → Option ExpressionNode) :
    Option GenericExpressionNode → Option ExpressionNode
  | none => none
  | some g => transformExpressionGE psf g

/-- parser.ts parseContainerRule (lines 298-319). -/
def parseContainerRule (psf : List Node → Option ExpressionNode)
    (nodes : List Node) : Option ContainerRule :=
  match consumeContainerNames nodes false with
  | (none, _) => none
  | (some names, l1) =>
    if names.length > 1 then none
    else
      match consumeMediaCondition l1 with
      | (ge, l2) =>
        match transformExpression psf ge with
        | none => none
        | some condition =>
          let l3 := consumeWhitespaceL l2
          if isEOFTok (headE l3) then some ⟨names, condition⟩ else none

def parenBlockFoo : Node := .blockNode .leftParenthesis .simpleBlock [.ident "foo"]

theorem consumeContainerNamesGo_block :
    consumeContainerNamesGo [parenBlockFoo] [] = ([], [parenBlockFoo]) := by
  rw [consumeContainerNamesGo]
  simp [consumeWhitespaceL, List.dropWhile, isWhitespaceTok, parenBlockFoo]

theorem consumeContainerNamesGo_nil :
    consumeContainerNamesGo [] [] = ([], []) := by
  rw [consumeContainerNamesGo]
  simp [consumeWhitespaceL, List.dropWhile]

theorem parseQueryCondition_fooIdent :
    parseQueryCondition [Node.ident "foo"] false none =
      (none, [Node.ident "foo"]) := by
  rw [parseQueryCondition]
  simp [consumeWhitespaceL, List.dropWhile, isWhitespaceTok, headE,
    show strLower "foo" = "foo" from by decide]

theorem parseQueryInParens_foo :
    parseQueryInParens parenBlockFoo =
      some (.literal parenBlockFoo) := by
  rw [parenBlockFoo, parseQueryInParens, parseQueryCondition_fooIdent]

theorem consumeMediaCondition_foo :
    consumeMediaCondition [parenBlockFoo] =
      (some (.literal parenBlockFoo), []) := by
  show parseQueryCondition [parenBlockFoo] false none = _
  rw [parseQueryCondition_goodTerm_step parenBlockFoo [] none rfl]
  rw [parseQueryConditionTail]
  rw [parseQueryInParens_foo]
  simp [consumeWhitespaceL, headE, isEOFTok]

theorem parseContainerRule_foo :
    parseContainerRule (fun _ => none) [parenBlockFoo] =
      some ⟨[], .value .unknown⟩ := by
  rw [parseContainerRule]
  rw [show consumeContainerNames [parenBlockFoo] false =
      (some [], [parenBlockFoo]) from by
    rw [consumeContainerNames, consumeContainerNamesGo_block]
    simp [headE, isEOFTok]]
  dsimp only
  rw [consumeMediaCondition_foo]
  simp [transformExpression, transformExpressionGE, parenBlockFoo,
    consumeWhitespaceL, headE, isEOFTok]

theorem parseContainerRule_nil :
    parseContainerRule (fun _ => none) [] = none := by
  rw [parseContainerRule]
  rw [show consumeContainerNames [] false = (some [], []) from by
    rw [consumeContainerNames, consumeContainerNamesGo_nil]
    simp [headE, isEOFTok]]
  dsimp only
  rw [show consumeMediaCondition [] = (none, []) from by
    show parseQueryCondition [] false none = _
    rw [parseQueryCondition]
    simp [consumeWhitespaceL, headE]
    rw [parseQueryConditionTail]]
  simp [transformExpression]

/-! ## Stylesheet transform: the @container at-rule

Two revisions are embedded: transform.ts (whose wrapper body is
BLOCK_PREFIX, the reset rule, followed by the rewritten rules) and
src/unnamed/part_000 (whose wrapper body is only the rewritten rules; the
reset lives in a global style element there).  The recursive body
transform (transformStylesheet of the parsed block) is threaded as the
parameter tsRec; serialization and re-tokenization (utils/css.ts, not
under src/) are the parameters ser and reparse. -/

/-- The custom property names (constants.ts is not under src/; the per-run
uid suffix is irrelevant to the claims and omitted). -/
def CUSTOM_PROPERTY_TYPE : String := "--cq-container-type"

def CUSTOM_PROPERTY_NAME : String := "--cq-container-name"

/-- Modelled from the spec: the parsed value of the constant reset-rule
text in transform.ts lines 70-76 (parseStylesheet/tokenize live in
utils/css.ts, which is not under src/).  It is the single `*` rule that
resets the two custom properties; only its position in the wrapper matters
to the claims. -/
def BLOCK_PREFIX : List Node :=
  [.qualifiedRuleNode [.delim "*", .whitespace]
    (.blockNode .leftBrace .declarationList
      [.declarationNode CUSTOM_PROPERTY_TYPE [.ident "initial"] false,
       .declarationNode CUSTOM_PROPERTY_NAME [.ident "initial"] false])]

/-- Set.add on the insertion-ordered element-selector set. -/
def setAdd (l : List String) (s : String) : List String :=
  if l.contains s then l else l ++ [s]

/-- transform.ts ContainerQueryDescriptor. -/
structure DescA where
  names : List String
  condition : ExpressionNode
  uid : String
  selector : String
deriving DecidableEq, Repr

/-- Module state of transform.ts transpileStyleSheet: the descriptor list
and the CONTAINER_ID counter. -/
structure GStA where
  queryDescriptors : List DescA
  containerId : ℕ

/-- transform.ts transformContainerAtRule (lines 277-330). -/
def transformContainerAtRuleA (psf : List Node → Option ExpressionNode)
    (ser : Node → String)
    (tsRec : List Node → GStA → List Node × GStA)
    (node : Node) (g : GStA) : Node × GStA :=
  match node with
  | .atRuleNode nm prelude (some (.blockNode bsrc bt bval)) =>
    match parseContainerRule psf prelude with
    | some containerRule =>
      let uid := "c" ++ toString g.containerId
      let g1 : GStA := ⟨g.queryDescriptors, g.containerId + 1⟩
      let r := tsRec bval g1
      let folded := r.1.foldl (fun (acc : List Node × List String) rule =>
        match rule with
        | .qualifiedRuleNode rprelude rval =>
          let t := transformSelector rprelude uid
          (acc.1 ++ [.qualifiedRuleNode t.2 rval],
           setAdd acc.2 (strJoin (t.1.map ser)))
        | _ => acc) ([], [])
      let g2 := if folded.2.isEmpty then r.2
        else ⟨r.2.queryDescriptors ++
          [⟨containerRule.names, containerRule.condition, uid,
            strJoinSep ", " folded.2⟩], r.2.containerId⟩
      (.atRuleNode "media" [.ident "all"]
         (some (.blockNode bsrc .ruleList ( BLOCK_PREFIX ++ folded.1))), g2)
    | none => (.atRuleNode nm prelude (some (.blockNode bsrc bt bval)), g)
  | _ => (node, g)

/-! ### part_000 revision -/

def NO_WHERE_SELECTOR : String := ":not(.container-query-polyfill)"

/-- Modelled from the spec: parseComponentValue(tokenize(NO_WHERE_SELECTOR))
from part_000 lines 85-87 (the tokenizer is not under src/). -/
def NO_WHERE_SELECTOR_TOKENS : List Node :=
  [.colon, .functionNode "not" [.delim ".", .ident "container-query-polyfill"]]

structure InvalidSelector where
  actual : String
  expected : String
deriving DecidableEq, Repr

/-- Loop of part_000 transformSelector (lines 155-245), with
SUPPORTS_WHERE_PSEUDO_CLASS (sw) and IS_WPT_BUILD (iw) as parameters and
the invalid selectors reported through the returned list (the source
reports them through a callback). -/
def transformSelectorBGo (sw iw : Bool) (ser : Node → String)
    (reparse : String → List Node) (containerUID : String)
    (lead r : List Node) : List Node × List Node × List InvalidSelector :=
  match r with
  | [] => ([], [], [])
  | n1 :: tl =>
    if isEOFTok n1 then ([], [], [])
    else
      let s1 := scanNonPseudo (n1 :: tl)
      let raw := lead ++ s1.1
      let target0 :=
        if raw.isEmpty then [Node.delim "*"] else trimTrailingWhitespace raw
      let s2 := scanPseudo s1.2
      let targetSelector :=
        if iw ∧ sw = false then target0 ++ NO_WHERE_SELECTOR_TOKENS else target0
      let step : List Node × List Node × List InvalidSelector :=
        if sw = false then
          let actual := strJoin (targetSelector.map ser)
          if strEndsWith actual NO_WHERE_SELECTOR = false then
            (targetSelector, [attrBlock containerUID],
             [⟨actual, actual ++ NO_WHERE_SELECTOR⟩])
          else
            (reparse (strDropRight actual NO_WHERE_SELECTOR.length),
             [attrBlock containerUID], [])
        else
          (targetSelector,
           [Node.delim ":", Node.functionNode "where" [attrBlock containerUID]], [])
      let rec1 := transformSelectorBGo sw iw ser reparse containerUID
        (s2.2.take 1) (s2.2.drop 1)
      (targetSelector ++ rec1.1,
       step.1 ++ step.2.1 ++ s2.1 ++ rec1.2.1,
       step.2.2 ++ rec1.2.2)
termination_by r.length
decreasing_by
  exact transformSelectorGo_dec _ _

/-- part_000 transformSelector. -/
def transformSelectorB (sw iw : Bool) (ser : Node → String)
    (reparse : String → List Node) (nodes : List Node) (containerUID : String) :
    List Node × List Node × List InvalidSelector :=
  transformSelectorBGo sw iw ser reparse containerUID [] nodes

/-- With SUPPORTS_WHERE_PSEUDO_CLASS, the part_000 selector loop computes
the same element selector as the transform.ts loop and reports no invalid
selectors (its style selector differs only in the suffix tokens). -/
theorem transformSelectorBGo_where (iw : Bool) (ser : Node → String)
    (reparse : String → List Node) (uid : String) :
    ∀ (fuel : ℕ) (lead r : List Node), r.length ≤ fuel →
      (transformSelectorBGo true iw ser reparse uid lead r).1 =
        (transformSelectorGo uid lead r).1 ∧
      (transformSelectorBGo true iw ser reparse uid lead r).2.2 = [] := by
  intro fuel
  induction fuel with
  | zero =>
    intro lead r hlen
    have hr : r = [] := List.eq_nil_of_length_eq_zero (Nat.le_zero.mp hlen)
    subst hr
    simp [transformSelectorBGo, transformSelectorGo]
  | succ fuel ih =>
    intro lead r hlen
    cases r with
    | nil => simp [transformSelectorBGo, transformSelectorGo]
    | cons n1 tl =>
      rw [transformSelectorBGo, transformSelectorGo]
      by_cases he : isEOFTok n1 = true
      · simp [he]
      · have he' : isEOFTok n1 = false := by
          cases hx : isEOFTok n1
          · rfl
          · exact absurd hx he
        have hrec := ih ((scanPseudo (scanNonPseudo (n1 :: tl)).2).2.take 1)
          ((scanPseudo (scanNonPseudo (n1 :: tl)).2).2.drop 1)
          (by
            have hd := transformSelectorGo_dec n1 tl
            simp only [List.length_cons] at hlen hd ⊢
            omega)
        simp only [he', Bool.false_eq_true, if_false]
        simp only [hrec.1, hrec.2]
        simp only [show ((true : Bool) = false) ↔ False from by simp, and_false,
          if_false, false_and, List.nil_append, List.append_nil]
        exact ⟨trivial, trivial⟩

/-- part_000 transformSelector under SUPPORTS_WHERE_PSEUDO_CLASS: same
element selector as transform.ts transformSelector, no invalid selectors. -/
theorem transformSelectorB_where (iw : Bool) (ser : Node → String)
    (reparse : String → List Node) (nodes : List Node) (uid : String) :
    (transformSelectorB true iw ser reparse nodes uid).1 =
      (transformSelector nodes uid).1 ∧
    (transformSelectorB true iw ser reparse nodes uid).2.2 = [] :=
  transformSelectorBGo_where iw ser reparse uid nodes.length [] nodes le_rfl

/-- part_000 ContainerQueryDescriptor.  The parent back-reference is
modelled by the parent descriptor's uid (the source holds an object
reference into the same descriptor list). -/
structure DescB where
  names : List String
  condition : ExpressionNode
  uid : String
  selector : Option String
  parentUid : Option String
deriving DecidableEq, Repr

/-- Per-@container local state: the invalidSelectors and elementSelectors
accumulators captured by the transformStyleRule hook. -/
structure HookStB where
  invalidSelectors : List InvalidSelector
  elementSelectors : List String
deriving DecidableEq, Repr

/-- Module state of part_000 transpileStyleSheet. -/
structure GStB where
  queryDescriptors : List DescB
  containerId : ℕ
deriving DecidableEq, Repr

/-- part_000 transformContainerAtRule (lines 366-461).  tsRec stands for
transformStylesheet of the parsed body with the nested container context
(parent uid and transformStyleRule hook); the console.warn on invalid
selectors is a dropped side effect. -/
def transformContainerAtRuleB (psf : List Node → Option ExpressionNode)
    (ser : Node → String) (reparse : String → List Node) (sw iw : Bool)
    (tsRec : String → (Node → HookStB → Node × HookStB) → List Node →
      HookStB → GStB → List Node × HookStB × GStB)
    (ctxParentUid : Option String) (node : Node) (g : GStB) : Node × GStB :=
  match node with
  | .atRuleNode nm prelude (some (.blockNode bsrc bt bval)) =>
    match parseContainerRule psf prelude with
    | some containerRule =>
      let uid := "c" ++ toString g.containerId
      let g1 : GStB := ⟨g.queryDescriptors, g.containerId + 1⟩
      let hook : Node → HookStB → Node × HookStB := fun rule hs =>
        match rule with
        | .qualifiedRuleNode rprelude rval =>
          let t := transformSelectorB sw iw ser reparse rprelude uid
          let hs1 : HookStB := ⟨hs.invalidSelectors ++ t.2.2, hs.elementSelectors⟩
          if hs1.invalidSelectors.length > 0 then (.qualifiedRuleNode rprelude rval, hs1)
          else
            (.qualifiedRuleNode t.2.1 rval,
             ⟨hs1.invalidSelectors,
              setAdd hs1.elementSelectors (strJoin (t.1.map ser))⟩)
        | other => (other, hs)
      let r := tsRec uid hook bval ⟨[], []⟩ g1
      if r.2.1.invalidSelectors.length > 0 then
        (.atRuleNode nm prelude (some (.blockNode bsrc bt bval)), r.2.2)
      else
        let selector :=
          if r.2.1.elementSelectors.length > 0 then
            some (strJoinSep ", " r.2.1.elementSelectors)
          else none
        let descriptor : DescB :=
          ⟨containerRule.names, containerRule.condition, uid, selector, ctxParentUid⟩
        (.atRuleNode "media" [.ident "all"] (some (.blockNode bsrc .ruleList r.1)),
         ⟨r.2.2.queryDescriptors ++ [descriptor], r.2.2.containerId⟩)
    | none => (.atRuleNode nm prelude (some (.blockNode bsrc bt bval)), g)
  | _ => (node, g)

/-- Rule-list map of part_000 transformStylesheet (lines 95-120): every rule
of the list is dispatched in order, state threaded left to right; the
at-rule and style-rule handlers are parameters. -/
def transformStylesheetRules {σ : Type}
    (handleAtRule : Node → σ → Node × σ)
    (handleStyleRule : Node → σ → Node × σ) :
    List Node → σ → List Node × σ
  | [], st => ([], st)
  | r :: rs, st =>
    let p :=
      match r with
      | .atRuleNode anm apre av => handleAtRule (.atRuleNode anm apre av) st
      | .qualifiedRuleNode qpre qv => handleStyleRule (.qualifiedRuleNode qpre qv) st
      | other => (other, st)
    let rest := transformStylesheetRules handleAtRule handleStyleRule rs p.2
    (p.1 :: rest.1, rest.2)

theorem transformStylesheetRules_length {σ : Type}
    (hA hQ : Node → σ → Node × σ) (rules : List Node) (st : σ) :
    (transformStylesheetRules hA hQ rules st).1.length = rules.length := by
  induction rules generalizing st with
  | nil => simp [transformStylesheetRules]
  | cons r rs ih => simp [transformStylesheetRules, ih]

/-! ## Layout state engine (engine.ts, second revision, lines 866-1855 of
the concatenated file)

evaluate.ts is not under src/, so evaluateContainerCondition is the
abstract parameter evalCC (boolean or null, null meaning indeterminate),
and the ContainerType bit values are taken from their uses
(InlineSize = 1, BlockSize = 2, size = both).  isContainerStandaloneKeyword
from the missing revision of parser.ts is the abstract parameter isk. -/

/-- The descriptor's rule as the engine reads it: the optional single
container name and the compiled condition. -/
structure QueryRule where
  name : Option String
  condition : ExpressionNode
deriving DecidableEq, Repr

/-- engine.ts ContainerQueryDescriptor as used by computeLayoutState:
uid, rule, and the parent-descriptor chain. -/
inductive Desc where
  | mk (uid : String) (rule : QueryRule) (parent : Option Desc)

def Desc.uid : Desc → String
  | .mk u _ _ => u

def Desc.rule : Desc → QueryRule
  | .mk _ r _ => r

def Desc.parent : Desc → Option Desc
  | .mk _ _ p => p

def Desc.decEq : (a b : Desc) → Decidable (a = b)
  | .mk u1 r1 none, .mk u2 r2 none =>
    if h1 : u1 = u2 then
      if h2 : r1 = r2 then isTrue (by rw [h1, h2])
      else isFalse (by intro h; injection h; contradiction)
    else isFalse (by intro h; injection h; contradiction)
  | .mk _ _ none, .mk _ _ (some _) =>
    isFalse (by intro h; injection h with h1 h2 h3; exact Option.noConfusion h3)
  | .mk _ _ (some _), .mk _ _ none =>
    isFalse (by intro h; injection h with h1 h2 h3; exact Option.noConfusion h3)
  | .mk u1 r1 (some p1), .mk u2 r2 (some p2) =>
    if h1 : u1 = u2 then
      if h2 : r1 = r2 then
        match Desc.decEq p1 p2 with
        | isTrue h3 => isTrue (by rw [h1, h2, h3])
        | isFalse h3 =>
          isFalse (by
            intro h
            injection h with g1 g2 g3
            exact h3 (Option.some.inj g3))
      else isFalse (by intro h; injection h; contradiction)
    else isFalse (by intro h; injection h; contradiction)

instance : DecidableEq Desc := Desc.decEq

/-- QueryContainerFlags.Condition. -/
def FLAG_CONDITION : ℕ := 1

/-- QueryContainerFlags.Container. -/
def FLAG_CONTAINER : ℕ := 2

/-- The engine's per-element conditions map (a JS Map from descriptor uid
to QueryContainerFlags), as an association list with first-match lookup. -/
def CondMap := List (String × ℕ)

def condGet (m : CondMap) (k : String) : Option ℕ :=
  match m with
  | [] => none
  | (k', v) :: rest => if k' = k then some v else condGet rest k

/-- Map.set.  computeQueryState only sets a uid it just found absent, so
prepending is observably the same as in-place replacement. -/
def condSet (m : CondMap) (k : String) (v : ℕ) : CondMap := (k, v) :: m

/-- The guard `name == null || containerNames.has(name)` of
computeQueryCondition. -/
def nameMatches (containerNames : List String) : Option String → Bool
  | none => true
  | some n => containerNames.contains n

/-- engine.ts computeQueryCondition (lines 1718-1735): evaluate the rule
when the name matches (or is absent); on a null result inherit the parent
element's cached flags for the uid, read through the JS expression
`(condition && Condition) === Condition` (&& keeps 0 as 0 and otherwise
yields Condition, so the test is just nonzero-ness). -/
def computeQueryCondition (evalCC : QueryRule → Option Bool)
    (containerNames : List String) (parentConditions : CondMap)
    (query : Desc) : Bool :=
  let result :=
    if nameMatches containerNames query.rule.name then evalCC query.rule
    else none
  match result with
  | none =>
    let condition := (condGet parentConditions query.uid).getD 0
    decide ((if condition = 0 then 0 else FLAG_CONDITION) = FLAG_CONDITION)
  | some b => b

/-- engine.ts computeQueryState (lines 1737-1758): memoized per-uid flags;
`container` is the condition AND (no parent OR the parent's Condition bit
`(computeQueryState(conditions, parent) & Condition) === Condition`,
computed recursively into the same map, with the JS short-circuit skipping
the recursion when the condition is already false). -/
def computeQueryState (cond : Desc → Bool) : CondMap → Desc → CondMap × ℕ
  | conditions, .mk quid qrule qparent =>
    match condGet conditions quid with
    | some state => (conditions, state)
    | none =>
      let condition := cond (.mk quid qrule qparent)
      let step : CondMap × Bool :=
        if condition then
          match qparent with
          | none => (conditions, true)
          | some p =>
            let r := computeQueryState cond conditions p
            (r.1, decide (r.2.land FLAG_CONDITION = FLAG_CONDITION))
        else (conditions, false)
      let state := (if condition then FLAG_CONDITION else 0) |||
                   (if step.2 then FLAG_CONTAINER else 0)
      (condSet step.1 quid state, state)

/-- The conditions-map construction of computeLayoutState (lines 1705 and
1760-1762): a fresh map folded over all query descriptors. -/
def computeConditions (cond : Desc → Bool) (queryDescriptors : List Desc) :
    CondMap :=
  queryDescriptors.foldl (fun m q => (computeQueryState cond m q).1) []

/-- DisplayFlags.Enabled. -/
def FLAG_ENABLED : ℕ := 1

/-- DisplayFlags.EligibleForSizeContainment. -/
def FLAG_ELIGIBLE : ℕ := 2

/-- engine.ts TABLE_OR_RUBY_DISPLAY_TYPE.test: the regex
(\w*(\s|-))?(table|ruby)(-\w*)? is unanchored and both outer groups are
optional, so it matches exactly when "table" or "ruby" occurs as a
substring. -/
def tableOrRubyDisplayTypeTest (s : String) : Bool :=
  strContainsSeq s "table" || strContainsSeq s "ruby"

/-- engine.ts computeDisplayFlags (lines 1624-1639). -/
def computeDisplayFlags (displayType : String) : ℕ :=
  if displayType ≠ "none" then
    if displayType ≠ "contents" ∧ displayType ≠ "inline" ∧
        tableOrRubyDisplayTypeTest displayType = false then
      FLAG_ENABLED ||| FLAG_ELIGIBLE
    else FLAG_ENABLED
  else 0

/-- ContainerType bits (evaluate.ts is not under src/; the values are fixed
by their uses in engine.ts: InlineSize = 1, BlockSize = 2, size = both). -/
def CT_INLINE_SIZE : ℕ := 1

def CT_BLOCK_SIZE : ℕ := 2

/-- The internal keyword marker (the global style element writes cq-normal
and cq-none, fixing the prefix). -/
def INTERNAL_KEYWORD_PREFIX : String := "cq-"

/-- Loop of engine.ts computeContainerType (lines 1606-1621). -/
def containerTypeParts : List String → ℕ → ℕ
  | [], acc => acc
  | p :: rest, acc =>
    if p = "size" then containerTypeParts rest (acc ||| (CT_INLINE_SIZE ||| CT_BLOCK_SIZE))
    else if p = "inline-size" then containerTypeParts rest (acc ||| CT_INLINE_SIZE)
    else 0

/-- engine.ts computeContainerType (lines 1590-1622).  isk stands for
isContainerStandaloneKeyword (from the revision of parser.ts that is not
under src/). -/
def computeContainerType (isk : String → Bool) (containerType : String) : ℕ :=
  if containerType.length = 0 then 0
  else if strStartsWith containerType INTERNAL_KEYWORD_PREFIX then
    let rest := strDrop containerType INTERNAL_KEYWORD_PREFIX.length
    if rest = "normal" ∨ isk rest then 0
    else containerTypeParts (strSplitOnSpace rest) 0
  else containerTypeParts (strSplitOnSpace containerType) 0

/-- engine.ts computeContainerNames (lines 1641-1653).  A JS Set built from
the split is modelled by the list (only membership is ever used). -/
def computeContainerNames (isk : String → Bool) (containerNames : String) :
    List String :=
  if strStartsWith containerNames INTERNAL_KEYWORD_PREFIX then
    let rest := strDrop containerNames INTERNAL_KEYWORD_PREFIX.length
    if rest = "none" ∨ isk rest then []
    else if rest.length = 0 then [] else strSplitOnSpace rest
  else if containerNames.length = 0 then [] else strSplitOnSpace containerNames

inductive WritingAxis where
  | horizontal
  | vertical
deriving DecidableEq, Repr

def VERTICAL_WRITING_MODES : List String :=
  ["vertical-lr", "vertical-rl", "sideways-rl", "sideways-lr", "tb", "tb-lr",
   "tb-rl"]

/-- engine.ts computeWritingAxis (lines 1655-1659). -/
def computeWritingAxis (writingMode : String) : WritingAxis :=
  if VERTICAL_WRITING_MODES.contains writingMode then .vertical else .horizontal

/-- engine.ts computeDimension (parseFloat of a computed style read; the
dependency-recording wrapper is value-transparent). -/
def computeDimension (read : String → String) (name : String) : JSNumber :=
  jsParseFloat (read name)

/-- engine.ts computeDimensionSum (lines 1665-1670). -/
def computeDimensionSum (read : String → String) (names : List String) :
    JSNumber :=
  names.foldl (fun v n => v.add (computeDimension read n)) (JSNumber.num 0)

def WIDTH_BORDER_BOX_PROPERTIES : List String :=
  ["padding-left", "padding-right", "border-left-width", "border-right-width"]

def HEIGHT_BORDER_BOX_PROPERTIES : List String :=
  ["padding-top", "padding-bottom", "border-top-width", "border-bottom-width"]

structure ElementSizeData where
  width : JSNumber
  height : JSNumber
  fontSize : JSNumber
deriving DecidableEq, Repr

/-- engine.ts computeSizeData (lines 1784-1799). -/
def computeSizeData (read : String → String) : ElementSizeData :=
  let isBorderBox := read "box-sizing" = "border-box"
  let widthOffset :=
    if isBorderBox then computeDimensionSum read WIDTH_BORDER_BOX_PROPERTIES
    else JSNumber.num 0
  let heightOffset :=
    if isBorderBox then computeDimensionSum read HEIGHT_BORDER_BOX_PROPERTIES
    else JSNumber.num 0
  { fontSize := computeDimension read "font-size"
    width := (computeDimension read "width").sub widthOffset
    height := (computeDimension read "height").sub heightOffset }

structure ElementLayoutData where
  containerType : ℕ
  containerNames : List String
  writingAxis : WritingAxis
  displayFlags : ℕ

/-- engine.ts computeLayoutData (lines 1801-1808). -/
def computeLayoutData (isk : String → Bool) (read : String → String) :
    ElementLayoutData :=
  { containerType := computeContainerType isk (strTrim (read CUSTOM_PROPERTY_TYPE))
    containerNames := computeContainerNames isk (strTrim (read CUSTOM_PROPERTY_NAME))
    writingAxis := computeWritingAxis (strTrim (read "writing-mode"))
    displayFlags := computeDisplayFlags (strTrim (read "display")) }

structure SizeFeatures where
  width : Option JSNumber
  height : Option JSNumber
  inlineSize : Option JSNumber
  blockSize : Option JSNumber
deriving DecidableEq, Repr

/-- engine.ts computeSizeFeatures (lines 1554-1588): the writing axis picks
which physical dimension is inline vs block, and without the BlockSize
container-type bit the block axis value is cleared (through the aliased
axis record, hence the width/height fields see the clearing too). -/
def computeSizeFeatures (layoutData : ElementLayoutData)
    (sizeData : ElementSizeData) : SizeFeatures :=
  let vertical := layoutData.writingAxis = WritingAxis.vertical
  let blockBit := layoutData.containerType.land CT_BLOCK_SIZE = CT_BLOCK_SIZE
  let hval : Option JSNumber :=
    if ¬ blockBit ∧ vertical then none else some sizeData.width
  let vval : Option JSNumber :=
    if ¬ blockBit ∧ ¬ vertical then none else some sizeData.height
  { width := hval
    height := vval
    inlineSize := if vertical then vval else hval
    blockSize := if vertical then hval else vval }

structure TreeContext where
  cqw : Option JSNumber
  cqh : Option JSNumber
  fontSize : JSNumber
  rootFontSize : JSNumber
  writingAxis : WritingAxis
deriving DecidableEq, Repr

structure QueryContext where
  sizeFeatures : SizeFeatures
  treeContext : TreeContext
deriving DecidableEq, Repr

/-- engine.ts LayoutState. -/
structure LayoutState where
  conditions : CondMap
  context : TreeContext
  displayFlags : ℕ
  isQueryContainer : Bool
  queryDescriptors : List Desc

/-- engine.ts computeLayoutState (lines 1672-1782).  styles is the
computed-style reader (the dependency-recording read wrapper is
value-transparent and is modelled separately for the memoization claim);
evalCC is evaluateContainerCondition from the missing evaluate.ts. -/
def computeLayoutState (isk : String → Bool)
    (evalCC : QueryRule → QueryContext → Option Bool)
    (styles : String → String) (parentState : LayoutState) : LayoutState :=
  let parentContext := parentState.context
  let parentConditions := parentState.conditions
  let queryDescriptors := parentState.queryDescriptors
  let layoutData := computeLayoutData isk styles
  let context0 : TreeContext := { parentContext with writingAxis := layoutData.writingAxis }
  let displayFlags :=
    if parentState.displayFlags.land FLAG_ENABLED = 0 then 0
    else layoutData.displayFlags
  if layoutData.containerType > 0 then
    let isValidContainer :=
      layoutData.containerType > 0 ∧
        displayFlags.land FLAG_ELIGIBLE = FLAG_ELIGIBLE
    if isValidContainer then
      let sizeData := computeSizeData styles
      let context1 := { context0 with fontSize := sizeData.fontSize }
      let sizeFeatures := computeSizeFeatures layoutData sizeData
      let queryContext : QueryContext := ⟨sizeFeatures, context1⟩
      let cond := computeQueryCondition (fun r => evalCC r queryContext)
        layoutData.containerNames parentConditions
      let conditions := computeConditions cond queryDescriptors
      let context2 := { context1 with
        cqw := match sizeFeatures.width with
          | some w => some (w.div (JSNumber.num 100))
          | none => parentContext.cqw
        cqh := match sizeFeatures.height with
          | some h => some (h.div (JSNumber.num 100))
          | none => parentContext.cqh }
      { conditions := conditions, context := context2,
        displayFlags := displayFlags, isQueryContainer := true,
        queryDescriptors := queryDescriptors }
    else
      { conditions := [], context := context0, displayFlags := displayFlags,
        isQueryContainer := true, queryDescriptors := queryDescriptors }
  else
    { conditions := parentConditions, context := context0,
      displayFlags := displayFlags, isQueryContainer := false,
      queryDescriptors := queryDescriptors }

/-! ## Pull-based memoization (engine.ts createMemoizedValue, lines
1810-1841, and the attribute-write guard of update, lines 1319-1327)

A computation is modelled by the readers it performs (each a function of
the outside world W returning a value in V) and its result; one recompute
records, for every reader, the value it returned in that pass.  The JS
`!==` comparison is value equality on the primitive computed-style strings
the engine records (and reference equality on the parent-state object,
which the model's value equality refines). -/

structure MemoizedValue (W V T : Type) where
  dependencies : List (V × (W → V))
  previousValue : Option T

/-- The dirty-check loop: some recorded dependency re-read differs from its
recorded value (`dependency[1]() !== dependency[0]`). -/
def areDepsDirty {W V : Type} [DecidableEq V] (w : W)
    (deps : List (V × (W → V))) : Bool :=
  deps.any (fun d => decide (d.2 w ≠ d.1))

/-- One compute pass at world w: the result value plus the recorded
(value, reader) dependency list. -/
def runCompute {W V T : Type} (readers : W → List (W → V)) (value : W → T)
    (w : W) : List (V × (W → V)) × T :=
  ((readers w).map (fun r => (r w, r)), value w)

/-- One call of the closure returned by createMemoizedValue: recompute
(clearing and re-recording the dependencies) when there is no previous
value or some dependency is dirty, otherwise return the previous value
with the state untouched.  The Bool reports which branch ran. -/
def createMemoizedValue {W V T : Type} [DecidableEq V]
    (readers : W → List (W → V)) (value : W → T)
    (st : MemoizedValue W V T) (w : W) : T × MemoizedValue W V T × Bool :=
  let dirty := areDepsDirty w st.dependencies
  match st.previousValue with
  | none =>
    let r := runCompute readers value w
    (r.2, ⟨r.1, some r.2⟩, true)
  | some prev =>
    if dirty then
      let r := runCompute readers value w
      (r.2, ⟨r.1, some r.2⟩, true)
    else (prev, st, false)

/-- The guard in update (engine.ts lines 1319-1327): attribute writes are
emitted only when the freshly obtained state differs from the one the
previous update saw. -/
def updateWritesAttributes {T : Type} [DecidableEq T] (currentState : T)
    (prevLayoutState : Option T) : Bool :=
  decide (some currentState ≠ prevLayoutState)

/-! ## Specification layer for the conditions map (claims C1, C2, C3)

computeQueryState is shown to compute, for every descriptor, the closed-form
flags pureFlags: the Condition bit is the descriptor's own condition, the
Container bit additionally requires the parent descriptor's condition.
The uid-injectivity hypothesis reflects that transpile time allocates a
fresh uid per descriptor. -/

/-- The parent-condition factor of the recorded container flag. -/
def pureParentCond (cond : Desc → Bool) (q : Desc) : Bool :=
  match q.parent with
  | none => true
  | some p => cond p

/-- Closed form of the flags computeQueryState records for a descriptor. -/
def pureFlags (cond : Desc → Bool) (q : Desc) : ℕ :=
  (if cond q then FLAG_CONDITION else 0) |||
  (if cond q && pureParentCond cond q then FLAG_CONTAINER else 0)

def Desc.ancestors : Desc → List Desc
  | .mk u r none => [.mk u r none]
  | .mk u r (some p) => .mk u r (some p) :: Desc.ancestors p

/-- All descriptors reachable from a descriptor list through parent links. -/
def closureOf (qs : List Desc) : List Desc := qs.flatMap Desc.ancestors

/-- Distinctness of uids across a descriptor collection. -/
def UidInjOn (U : List Desc) : Prop :=
  ∀ d1 ∈ U, ∀ d2 ∈ U, d1.uid = d2.uid → d1 = d2

instance (U : List Desc) : Decidable (UidInjOn U) := by
  unfold UidInjOn; infer_instance

theorem condGet_condSet (m : CondMap) (k : String) (v : ℕ) (u : String) :
    condGet (condSet m k v) u = if k = u then some v else condGet m u := rfl

theorem pureFlags_land_condition (cond : Desc → Bool) (q : Desc) :
    ((pureFlags cond q).land FLAG_CONDITION = FLAG_CONDITION) ↔ cond q = true := by
  unfold pureFlags
  cases hc : cond q <;> cases hp : pureParentCond cond q <;>
    simp [hc, hp, FLAG_CONDITION, FLAG_CONTAINER] <;> decide

theorem pureFlags_land_container (cond : Desc → Bool) (q : Desc) :
    ((pureFlags cond q).land FLAG_CONTAINER = FLAG_CONTAINER) ↔
      (cond q = true ∧ pureParentCond cond q = true) := by
  unfold pureFlags
  cases hc : cond q <;> cases hp : pureParentCond cond q <;>
    simp [hc, hp, FLAG_CONDITION, FLAG_CONTAINER] <;> decide

theorem pureFlags_cases (cond : Desc → Bool) (q : Desc) :
    pureFlags cond q = 0 ∨ pureFlags cond q = 1 ∨ pureFlags cond q = 3 := by
  unfold pureFlags
  cases hc : cond q <;> cases hp : pureParentCond cond q <;>
    simp [hc, hp, FLAG_CONDITION, FLAG_CONTAINER] <;> decide

theorem Desc.self_mem_ancestors (q : Desc) : q ∈ q.ancestors := by
  cases q with
  | mk u r p => cases p <;> simp [Desc.ancestors]

theorem Desc.parent_mem_ancestors (q p : Desc) (h : q.parent = some p) :
    p ∈ q.ancestors := by
  cases q with
  | mk u r par =>
    cases par with
    | none => simp [Desc.parent] at h
    | some p' =>
      simp only [Desc.parent] at h
      cases h
      simp only [Desc.ancestors, List.mem_cons]
      exact Or.inr (Desc.self_mem_ancestors p)

theorem Desc.parent_sizeOf_lt (q p : Desc) (h : q.parent = some p) :
    sizeOf p < sizeOf q := by
  cases q with
  | mk u r par =>
    cases par with
    | none => simp [Desc.parent] at h
    | some p' =>
      simp only [Desc.parent] at h
      cases h
      simp only [Desc.mk.sizeOf_spec, Option.some.sizeOf_spec]
      omega

theorem Desc.sizeOf_le_of_mem_ancestors :
    ∀ (q d : Desc), d ∈ q.ancestors → sizeOf d ≤ sizeOf q
  | .mk u r none, d, h => by
    simp only [Desc.ancestors, List.mem_singleton] at h
    subst h
    exact le_rfl
  | .mk u r (some p), d, h => by
    simp only [Desc.ancestors, List.mem_cons] at h
    rcases h with rfl | h
    · exact le_rfl
    · have := Desc.sizeOf_le_of_mem_ancestors p d h
      have hlt : sizeOf p < sizeOf (Desc.mk u r (some p)) :=
        Desc.parent_sizeOf_lt _ p rfl
      omega

theorem Desc.ancestors_subset_of_mem :
    ∀ (q d : Desc), d ∈ q.ancestors → ∀ a ∈ d.ancestors, a ∈ q.ancestors
  | .mk u r none, d, h => by
    simp only [Desc.ancestors, List.mem_singleton] at h
    subst h
    intro a ha
    exact ha
  | .mk u r (some p), d, h => by
    simp only [Desc.ancestors, List.mem_cons] at h
    rcases h with rfl | h
    · intro a ha
      exact ha
    · intro a ha
      have := Desc.ancestors_subset_of_mem p d h a ha
      simp only [Desc.ancestors, List.mem_cons]
      exact Or.inr this

theorem closureOf_mem (qs : List Desc) (q : Desc) (h : q ∈ qs) :
    q ∈ closureOf qs := by
  simp only [closureOf, List.mem_flatMap]
  exact ⟨q, h, Desc.self_mem_ancestors q⟩

theorem closureOf_parent_closed (qs : List Desc) :
    ∀ d ∈ closureOf qs, ∀ p, d.parent = some p → p ∈ closureOf qs := by
  intro d hd p hp
  simp only [closureOf, List.mem_flatMap] at hd ⊢
  obtain ⟨q, hq, hdq⟩ := hd
  exact ⟨q, hq, Desc.ancestors_subset_of_mem q d hdq p (Desc.parent_mem_ancestors d p hp)⟩

theorem closureOf_ancestors_closed (qs : List Desc) :
    ∀ d ∈ closureOf qs, ∀ a ∈ d.ancestors, a ∈ closureOf qs := by
  intro d hd a ha
  simp only [closureOf, List.mem_flatMap] at hd ⊢
  obtain ⟨q, hq, hdq⟩ := hd
  exact ⟨q, hq, Desc.ancestors_subset_of_mem q d hdq a ha⟩

/-- Invariant of the conditions map during the fold: every entry is the
closed-form flags of the (unique) descriptor owning its uid. -/
def CondInv (cond : Desc → Bool) (U : List Desc) (m : CondMap) : Prop :=
  ∀ u f, condGet m u = some f → ∃ d, d ∈ U ∧ d.uid = u ∧ f = pureFlags cond d

theorem pureFlags_of_cond_false (cond : Desc → Bool) (q : Desc)
    (h : cond q = false) : pureFlags cond q = 0 := by
  simp [pureFlags, h]

theorem pureFlags_true_root (cond : Desc → Bool) (u : String) (r : QueryRule)
    (h : cond (.mk u r none) = true) : pureFlags cond (.mk u r none) = 3 := by
  simp [pureFlags, pureParentCond, Desc.parent, h, FLAG_CONDITION, FLAG_CONTAINER]

theorem pureFlags_true_parent (cond : Desc → Bool) (u : String) (r : QueryRule)
    (p : Desc) (h : cond (.mk u r (some p)) = true) :
    pureFlags cond (.mk u r (some p)) = if cond p then 3 else 1 := by
  cases hp : cond p <;>
    simp [pureFlags, pureParentCond, Desc.parent, h, hp, FLAG_CONDITION, FLAG_CONTAINER]

theorem computeQueryState_memo (cond : Desc → Bool) (m : CondMap)
    (quid : String) (qrule : QueryRule) (qparent : Option Desc) (f : ℕ)
    (h : condGet m quid = some f) :
    computeQueryState cond m (.mk quid qrule qparent) = (m, f) := by
  cases qparent with
  | none => rw [computeQueryState.eq_1]; simp [h]
  | some p => rw [computeQueryState.eq_2]; simp [h]

theorem computeQueryState_miss_false (cond : Desc → Bool) (m : CondMap)
    (quid : String) (qrule : QueryRule) (qparent : Option Desc)
    (h : condGet m quid = none) (hc : cond (.mk quid qrule qparent) = false) :
    computeQueryState cond m (.mk quid qrule qparent) = (condSet m quid 0, 0) := by
  cases qparent with
  | none => rw [computeQueryState.eq_1]; simp [h, hc]
  | some p => rw [computeQueryState.eq_2]; simp [h, hc]

theorem computeQueryState_miss_true_root (cond : Desc → Bool) (m : CondMap)
    (quid : String) (qrule : QueryRule)
    (h : condGet m quid = none) (hc : cond (.mk quid qrule none) = true) :
    computeQueryState cond m (.mk quid qrule none) = (condSet m quid 3, 3) := by
  rw [computeQueryState.eq_1]
  simp [h, hc, FLAG_CONDITION, FLAG_CONTAINER]

theorem computeQueryState_miss_true_parent (cond : Desc → Bool) (m : CondMap)
    (quid : String) (qrule : QueryRule) (p : Desc)
    (h : condGet m quid = none) (hc : cond (.mk quid qrule (some p)) = true) :
    computeQueryState cond m (.mk quid qrule (some p)) =
      (condSet (computeQueryState cond m p).1 quid
        (if (computeQueryState cond m p).2.land FLAG_CONDITION = FLAG_CONDITION
         then 3 else 1),
       if (computeQueryState cond m p).2.land FLAG_CONDITION = FLAG_CONDITION
       then 3 else 1) := by
  rw [computeQueryState.eq_2]
  simp only [h, hc]
  rcases hps : computeQueryState cond m p with ⟨m1, ps⟩
  by_cases hb : ps.land FLAG_CONDITION = FLAG_CONDITION
  · simp only [hps, hb, decide_eq_true_eq, if_true]
    simp [FLAG_CONDITION, FLAG_CONTAINER]
  · simp only [hps, hb, decide_eq_false hb, if_false]
    simp [hb, FLAG_CONDITION, FLAG_CONTAINER]

theorem condGet_nil (u : String) : condGet ([] : CondMap) u = none := rfl

/-- Simulation: on a uid-injective, parent-closed descriptor universe,
computeQueryState returns the closed-form flags, preserves the map
invariant, records its own entry, and keeps every existing entry. -/
theorem computeQueryState_sim (cond : Desc → Bool) (U : List Desc)
    (hinj : UidInjOn U)
    (hcl : ∀ d ∈ U, ∀ p, d.parent = some p → p ∈ U) :
    ∀ (n : ℕ) (q : Desc), sizeOf q ≤ n → q ∈ U → ∀ (m : CondMap),
      CondInv cond U m →
      (computeQueryState cond m q).2 = pureFlags cond q ∧
      CondInv cond U (computeQueryState cond m q).1 ∧
      condGet (computeQueryState cond m q).1 q.uid = some (pureFlags cond q) ∧
      (∀ u f, condGet m u = some f →
        condGet (computeQueryState cond m q).1 u = some f) := by
  intro n
  induction n with
  | zero =>
    intro q hsz
    exfalso
    cases q with
    | mk u r p =>
      have h1 : 0 < sizeOf (Desc.mk u r p) := by
        rw [Desc.mk.sizeOf_spec]; omega
      omega
  | succ n ih =>
    intro q hsz hqU m hm
    cases q with
    | mk quid qrule qparent =>
      cases hget : condGet m quid with
      | some f =>
        rw [computeQueryState_memo cond m quid qrule qparent f hget]
        dsimp only [Desc.uid]
        obtain ⟨d, hdU, hduid, hdf⟩ := hm quid f hget
        have hde : d = Desc.mk quid qrule qparent := hinj d hdU _ hqU hduid
        subst hde
        refine ⟨hdf, hm, ?_, fun u g hg => hg⟩
        rw [hget, hdf]
      | none =>
        cases hc : cond (.mk quid qrule qparent) with
        | false =>
          rw [computeQueryState_miss_false cond m quid qrule qparent hget hc]
          dsimp only [Desc.uid]
          have hpf : pureFlags cond (Desc.mk quid qrule qparent) = 0 :=
            pureFlags_of_cond_false cond _ hc
          refine ⟨hpf.symm, ?_, ?_, ?_⟩
          · intro u g hg
            rw [condGet_condSet] at hg
            by_cases he : quid = u
            · rw [if_pos he] at hg
              refine ⟨Desc.mk quid qrule qparent, hqU, he, ?_⟩
              rw [hpf]
              injection hg with hg
              omega
            · rw [if_neg he] at hg
              exact hm u g hg
          · rw [condGet_condSet, if_pos rfl, hpf]
          · intro u g hg
            rw [condGet_condSet]
            by_cases he : quid = u
            · rw [← he] at hg
              rw [hget] at hg
              exact absurd hg (by simp)
            · rw [if_neg he]
              exact hg
        | true =>
          cases qparent with
          | none =>
            rw [computeQueryState_miss_true_root cond m quid qrule hget hc]
            dsimp only [Desc.uid]
            have hpf : pureFlags cond (Desc.mk quid qrule none) = 3 :=
              pureFlags_true_root cond quid qrule hc
            refine ⟨hpf.symm, ?_, ?_, ?_⟩
            · intro u g hg
              rw [condGet_condSet] at hg
              by_cases he : quid = u
              · rw [if_pos he] at hg
                refine ⟨Desc.mk quid qrule none, hqU, he, ?_⟩
                rw [hpf]
                injection hg with hg
                omega
              · rw [if_neg he] at hg
                exact hm u g hg
            · rw [condGet_condSet, if_pos rfl, hpf]
            · intro u g hg
              rw [condGet_condSet]
              by_cases he : quid = u
              · rw [← he] at hg
                rw [hget] at hg
                exact absurd hg (by simp)
              · rw [if_neg he]
                exact hg
          | some p =>
            have hszp : sizeOf p ≤ n := by
              have hlt : sizeOf p < sizeOf (Desc.mk quid qrule (some p)) :=
                Desc.parent_sizeOf_lt _ p rfl
              omega
            have hpU : p ∈ U := hcl _ hqU p rfl
            obtain ⟨hres, hinv1, hown1, hpers1⟩ := ih p hszp hpU m hm
            rw [computeQueryState_miss_true_parent cond m quid qrule p hget hc]
            dsimp only [Desc.uid]
            have hbranch :
                (if (computeQueryState cond m p).2.land FLAG_CONDITION =
                      FLAG_CONDITION then (3 : ℕ) else 1) =
                  pureFlags cond (Desc.mk quid qrule (some p)) := by
              rw [hres, pureFlags_true_parent cond quid qrule p hc]
              by_cases hcp : cond p = true
              · rw [if_pos ((pureFlags_land_condition cond p).mpr hcp),
                  if_pos hcp]
              · have hcpf : cond p = false := by
                  cases hx : cond p
                  · rfl
                  · exact absurd hx hcp
                rw [if_neg (fun hx => hcp ((pureFlags_land_condition cond p).mp hx)),
                  if_neg (by rw [hcpf]; exact Bool.false_ne_true)]
            rw [hbranch]
            refine ⟨rfl, ?_, ?_, ?_⟩
            · intro u g hg
              rw [condGet_condSet] at hg
              by_cases he : quid = u
              · rw [if_pos he] at hg
                refine ⟨Desc.mk quid qrule (some p), hqU, he, ?_⟩
                injection hg with hg
                omega
              · rw [if_neg he] at hg
                exact hinv1 u g hg
            · rw [condGet_condSet, if_pos rfl]
            · intro u g hg
              rw [condGet_condSet]
              by_cases he : quid = u
              · rw [← he] at hg
                rw [hget] at hg
                exact absurd hg (by simp)
              · rw [if_neg he]
                exact hpers1 u g hg

/-- Fold form of the simulation over a list of descriptors. -/
theorem computeConditions_go (cond : Desc → Bool) (U : List Desc)
    (hinj : UidInjOn U)
    (hcl : ∀ d ∈ U, ∀ p, d.parent = some p → p ∈ U) :
    ∀ (l : List Desc), (∀ q ∈ l, q ∈ U) → ∀ (m : CondMap),
      CondInv cond U m →
      CondInv cond U
        (l.foldl (fun m q => (computeQueryState cond m q).1) m) ∧
      (∀ u f, condGet m u = some f →
        condGet (l.foldl (fun m q => (computeQueryState cond m q).1) m) u =
          some f) ∧
      (∀ q ∈ l,
        condGet (l.foldl (fun m q => (computeQueryState cond m q).1) m) q.uid =
          some (pureFlags cond q)) := by
  intro l
  induction l with
  | nil =>
    intro _ m hm
    exact ⟨hm, fun u f hf => hf, fun q hq => absurd hq (by simp)⟩
  | cons q l ihl =>
    intro hsub m hm
    have hqU : q ∈ U := hsub q (by simp)
    obtain ⟨hres, hinv1, hown1, hpers1⟩ :=
      computeQueryState_sim cond U hinj hcl (sizeOf q) q le_rfl hqU m hm
    have hsub' : ∀ x ∈ l, x ∈ U := fun x hx => hsub x (by simp [hx])
    obtain ⟨hinv2, hpers2, hall2⟩ :=
      ihl hsub' (computeQueryState cond m q).1 hinv1
    simp only [List.foldl_cons]
    refine ⟨hinv2, ?_, ?_⟩
    · intro u f hf
      exact hpers2 u f (hpers1 u f hf)
    · intro x hx
      rcases List.mem_cons.mp hx with rfl | hx'
      · exact hpers2 x.uid (pureFlags cond x) hown1
      · exact hall2 x hx'

/-- computeConditions records, for every listed descriptor, exactly its
closed-form flags, provided uids are distinct across the ancestor closure. -/
theorem computeConditions_spec (cond : Desc → Bool) (qs : List Desc)
    (hinj : UidInjOn (closureOf qs)) :
    CondInv cond (closureOf qs) (computeConditions cond qs) ∧
    ∀ q ∈ qs, condGet (computeConditions cond qs) q.uid =
      some (pureFlags cond q) := by
  have h0 : CondInv cond (closureOf qs) ([] : CondMap) := by
    intro u f hf
    rw [condGet_nil] at hf
    exact absurd hf (by simp)
  obtain ⟨hinv, _, hall⟩ :=
    computeConditions_go cond (closureOf qs) hinj
      (closureOf_parent_closed qs) qs (fun q hq => closureOf_mem qs q hq) [] h0
  exact ⟨hinv, hall⟩

/-! ## Concrete objects for the claim witnesses and counterexamples -/

def cqRule0 : QueryRule := ⟨none, .value .unknown⟩

def descG : Desc := .mk "g" cqRule0 none
def descP : Desc := .mk "p" cqRule0 (some descG)
def descD : Desc := .mk "d" cqRule0 (some descP)
def condNotG : Desc → Bool := fun q => !(q.uid = "g")

def descP1 : Desc := .mk "p" cqRule0 none
def descD1 : Desc := .mk "d" cqRule0 (some descP1)

theorem condMapAll :
    computeConditions (fun _ => true) [descP1, descD1] = [("d", 3), ("p", 3)] := by
  simp [computeConditions, List.foldl, computeQueryState.eq_1,
    computeQueryState.eq_2, condGet, condSet, descP1, descD1, cqRule0,
    Desc.uid, FLAG_CONDITION, FLAG_CONTAINER,
    show Nat.land 3 1 = 1 from by decide, show (1 ||| 2 : ℕ) = 3 from by decide]

theorem condMapNotG :
    computeConditions condNotG [descG, descP, descD] =
      [("d", 3), ("p", 1), ("g", 0)] := by
  simp [computeConditions, List.foldl, computeQueryState.eq_1,
    computeQueryState.eq_2, condGet, condSet, descG, descP, descD, condNotG,
    cqRule0, Desc.uid, FLAG_CONDITION, FLAG_CONTAINER,
    show Nat.land 1 1 = 1 from by decide, show (1 ||| 2 : ℕ) = 3 from by decide]

/-- C1: in any conditions map computed by the engine over uid-distinct
descriptors, a descriptor whose recorded flags set the Container bit has a
parent whose recorded flags set the Condition bit. -/
theorem c1_containment_monotonicity (cond : Desc → Bool) (qs : List Desc)
    (hinj : UidInjOn (closureOf qs)) (D P : Desc) (hD : D ∈ qs) (hP : P ∈ qs)
    (hpar : D.parent = some P) (fD fP : ℕ)
    (hgD : condGet (computeConditions cond qs) D.uid = some fD)
    (hgP : condGet (computeConditions cond qs) P.uid = some fP)
    (hcont : fD.land FLAG_CONTAINER = FLAG_CONTAINER) :
    fP.land FLAG_CONDITION = FLAG_CONDITION := by
  obtain ⟨hinv, hall⟩ := computeConditions_spec cond qs hinj
  have hfD : fD = pureFlags cond D := by
    have h1 := hall D hD
    rw [hgD] at h1
    exact Option.some.inj h1
  have hfP : fP = pureFlags cond P := by
    have h1 := hall P hP
    rw [hgP] at h1
    exact Option.some.inj h1
  rw [hfD] at hcont
  have hc := (pureFlags_land_container cond D).mp hcont
  have hcp : cond P = true := by
    have h2 := hc.2
    simp only [pureParentCond, hpar] at h2
    exact h2
  rw [hfP]
  exact (pureFlags_land_condition cond P).mpr hcp

theorem c1_containment_monotonicity_witness :
    UidInjOn (closureOf [descP1, descD1]) ∧
    descD1.parent = some descP1 ∧
    condGet (computeConditions (fun _ => true) [descP1, descD1]) descD1.uid =
      some 3 ∧
    condGet (computeConditions (fun _ => true) [descP1, descD1]) descP1.uid =
      some 3 ∧
    (3 : ℕ).land FLAG_CONDITION = FLAG_CONDITION :=
  ⟨by decide, rfl, by rw [condMapAll]; rfl, by rw [condMapAll]; rfl,
   c1_containment_monotonicity (fun _ => true) [descP1, descD1] (by decide)
     descD1 descP1 (by simp) (by simp) rfl 3 3 (by rw [condMapAll]; rfl)
     (by rw [condMapAll]; rfl) (by decide)⟩


/-- C2 counterexample: descriptor d (parent p, grandparent g with a false
condition) records Container although p's recorded Container flag is unset:
the recursion tests the parent's Condition flag, not its Container flag. -/
theorem c2_counterexample :
    condGet (computeConditions condNotG [descG, descP, descD]) descD.uid =
      some 3 ∧
    condGet (computeConditions condNotG [descG, descP, descD]) descP.uid =
      some 1 ∧
    condNotG descD = true ∧
    descD.parent = some descP ∧
    (3 : ℕ).land FLAG_CONTAINER = FLAG_CONTAINER ∧
    ¬ (1 : ℕ).land FLAG_CONTAINER = FLAG_CONTAINER :=
  ⟨by rw [condMapNotG]; rfl, by rw [condMapNotG]; rfl, by decide, rfl,
   by decide, by decide⟩

/-- C2 (amended): the recorded Container flag of a descriptor equals its own
condition AND the parent descriptor's recorded Condition (not Container)
flag. -/
theorem c2_parent_condition_flag (cond : Desc → Bool) (qs : List Desc)
    (hinj : UidInjOn (closureOf qs)) (D P : Desc) (hD : D ∈ qs) (hP : P ∈ qs)
    (hpar : D.parent = some P) (fD fP : ℕ)
    (hgD : condGet (computeConditions cond qs) D.uid = some fD)
    (hgP : condGet (computeConditions cond qs) P.uid = some fP) :
    (fD.land FLAG_CONTAINER = FLAG_CONTAINER ↔
      (cond D = true ∧ fP.land FLAG_CONDITION = FLAG_CONDITION)) := by
  obtain ⟨hinv, hall⟩ := computeConditions_spec cond qs hinj
  have hfD : fD = pureFlags cond D := by
    have h1 := hall D hD
    rw [hgD] at h1
    exact Option.some.inj h1
  have hfP : fP = pureFlags cond P := by
    have h1 := hall P hP
    rw [hgP] at h1
    exact Option.some.inj h1
  rw [hfD, hfP]
  rw [pureFlags_land_container, pureFlags_land_condition]
  have hpp : pureParentCond cond D = cond P := by
    simp only [pureParentCond, hpar]
  rw [hpp]

theorem c2_parent_condition_flag_witness :
    UidInjOn (closureOf [descG, descP, descD]) ∧
    descD.parent = some descP ∧
    ((3 : ℕ).land FLAG_CONTAINER = FLAG_CONTAINER ↔
      (condNotG descD = true ∧ (1 : ℕ).land FLAG_CONDITION = FLAG_CONDITION)) :=
  ⟨by decide, rfl,
   c2_parent_condition_flag condNotG [descG, descP, descD] (by decide)
     descD descP (by simp) (by simp) rfl 3 1 (by rw [condMapNotG]; rfl)
     (by rw [condMapNotG]; rfl)⟩

/-- C3: name mismatch or an indeterminate evaluation makes
computeQueryCondition fall back to the Condition bit of the parent element
cached flags for the uid, defaulting to false when no entry exists; the
fallback is an ordinary boolean result. -/
theorem c3_indeterminate_inheritance (evalCC : QueryRule → Option Bool)
    (names : List String) (cond : Desc → Bool) (qs : List Desc)
    (hinj : UidInjOn (closureOf qs)) (query : Desc)
    (hind : (if nameMatches names query.rule.name then evalCC query.rule
             else none) = none) :
    computeQueryCondition evalCC names (computeConditions cond qs) query =
      (match condGet (computeConditions cond qs) query.uid with
       | some f => decide (f.land FLAG_CONDITION = FLAG_CONDITION)
       | none => false) := by
  obtain ⟨hinv, hall⟩ := computeConditions_spec cond qs hinj
  simp only [computeQueryCondition]
  rw [hind]
  cases hval : condGet (computeConditions cond qs) query.uid with
  | none => simp [FLAG_CONDITION]
  | some f =>
    obtain ⟨d, hdU, hduid, hdf⟩ := hinv query.uid f hval
    rcases pureFlags_cases cond d with h0 | h0 | h0 <;>
      rw [hdf, h0] <;> simp [FLAG_CONDITION] <;> decide



def descA : Desc := .mk "a" cqRule0 none

theorem c3_indeterminate_inheritance_witness :
    UidInjOn (closureOf [descA]) ∧
    ((if nameMatches [] descA.rule.name then
        (fun (_ : QueryRule) => (none : Option Bool)) descA.rule
      else none) = none) ∧
    computeQueryCondition (fun _ => none) []
        (computeConditions (fun _ => true) [descA]) descA =
      (match condGet (computeConditions (fun _ => true) [descA]) descA.uid with
       | some f => decide (f.land FLAG_CONDITION = FLAG_CONDITION)
       | none => false) :=
  ⟨by decide, rfl,
   c3_indeterminate_inheritance (fun _ => none) [] (fun _ => true) [descA]
     (by decide) descA rfl⟩

/-- C4 counterexample: on selector tokens `a,,b` the loop leaves the empty
middle selector without the `*` substitute (only a first empty prefix gets
`*`), so the element selector differs from the claim's segment-wise
description. -/
theorem c4_counterexample :
    (transformSelectorB true false (fun _ => "") (fun _ => [])
        [.ident "a", .comma, .comma, .ident "b"] "u").1 =
      [.ident "a", .comma, .comma, .ident "b"] ∧
    (transformSelectorClaimed [.ident "a", .comma, .comma, .ident "b"] "u").1 =
      [.ident "a", .comma, .delim "*", .comma, .ident "b"] ∧
    ¬ (transformSelectorB true false (fun _ => "") (fun _ => [])
        [.ident "a", .comma, .comma, .ident "b"] "u").1 =
      (transformSelectorClaimed [.ident "a", .comma, .comma, .ident "b"] "u").1 := by
  have hB := (transformSelectorB_where false (fun _ => "") (fun _ => [])
    [.ident "a", .comma, .comma, .ident "b"] "u").1
  have hev : (transformSelector [.ident "a", .comma, .comma, .ident "b"] "u").1 =
      [.ident "a", .comma, .comma, .ident "b"] := by
    simp [transformSelector, transformSelectorGo, scanNonPseudo, scanPseudo,
      isPseudoElementStart, isEndOfSelector, isEOFTok, headE,
      trimTrailingWhitespace, isWhitespaceTok]
  have hcl : (transformSelectorClaimed [.ident "a", .comma, .comma, .ident "b"] "u").1 =
      [.ident "a", .comma, .delim "*", .comma, .ident "b"] := by
    simp [transformSelectorClaimed, transformSelectorClaimedGo, splitOnComma,
      dropLastEmpty, isCommaTok, splitAtPseudoStart, scanNonPseudo,
      isPseudoElementStart, isEndOfSelector, headE, trimTrailingWhitespace,
      isWhitespaceTok, whereSuffix]
  refine ⟨hB.trans hev, hcl, ?_⟩
  rw [hB.trans hev, hcl]
  intro h
  have := congrArg List.length h
  simp at this

/-- C4 (amended): with :where support, the part_000 selector loop splits at
the first pseudo-element boundary of each comma segment, but the comma
separator is carried at the head of every non-first segment's raw prefix,
only a first-segment empty prefix becomes `*`, and a trailing empty segment
is dropped; the transform.ts loop computes the same element selector. -/
theorem c4_selector_split_amended (iw : Bool) (ser : Node → String)
    (reparse : String → List Node) (nodes : List Node) (uid : String)
    (h : noEofTok nodes = true) :
    (transformSelectorB true iw ser reparse nodes uid).1 =
      (transformSelectorAmended nodes uid).1 ∧
    (transformSelectorB true iw ser reparse nodes uid).2.2 = [] ∧
    transformSelector nodes uid = transformSelectorAmended nodes uid := by
  have hB := transformSelectorB_where iw ser reparse nodes uid
  have hA := transformSelector_eq_amended nodes uid h
  exact ⟨hB.1.trans (congrArg Prod.fst hA), hB.2, hA⟩

theorem c4_selector_split_amended_witness :
    noEofTok [Node.ident "a", .comma, .ident "b"] = true ∧
    ((transformSelectorB true false (fun _ => "") (fun _ => [])
        [Node.ident "a", .comma, .ident "b"] "u").1 =
      (transformSelectorAmended [Node.ident "a", .comma, .ident "b"] "u").1 ∧
    (transformSelectorB true false (fun _ => "") (fun _ => [])
        [Node.ident "a", .comma, .ident "b"] "u").2.2 = [] ∧
    transformSelector [Node.ident "a", .comma, .ident "b"] "u" =
      transformSelectorAmended [Node.ident "a", .comma, .ident "b"] "u") :=
  ⟨by decide,
   c4_selector_split_amended false (fun _ => "") (fun _ => [])
     [Node.ident "a", .comma, .ident "b"] "u" (by decide)⟩


/-- C5 counterexample: the part_000 revision wraps a parsed @container rule
in @media all with only the rewritten rules; no reset rule is prepended
(an empty body stays empty, while a leading reset rule would make it
BLOCK_PREFIX ++ rest). -/
theorem c5_counterexample :
    (transformContainerAtRuleB (fun _ => none) (fun _ => "") (fun _ => [])
        true false (fun _ _ bval hs g => (bval, hs, g)) none
        (.atRuleNode "container" [parenBlockFoo]
          (some (.blockNode .leftBrace .ruleList []))) ⟨[], 0⟩).1 =
      .atRuleNode "media" [.ident "all"]
        (some (.blockNode .leftBrace .ruleList [])) ∧
    ∀ rest : List Node,
      Node.blockNode .leftBrace .ruleList ([] : List Node) ≠
        .blockNode .leftBrace .ruleList (BLOCK_PREFIX ++ rest) := by
  constructor
  · simp only [transformContainerAtRuleB]
    rw [parseContainerRule_foo]
    simp
  · intro rest h
    injection h with h1 h2 h3
    have := congrArg List.length h3
    simp [BLOCK_PREFIX] at this

/-- C5 (amended): in the transform.ts revision a parsed @container rule
becomes an inert @media all wrapper whose rule list is the reset rule
BLOCK_PREFIX followed by the rewritten rules. -/
theorem c5_media_all_wrapper (psf : List Node → Option ExpressionNode)
    (ser : Node → String) (tsRec : List Node → GStA → List Node × GStA)
    (nm : String) (prelude : List Node) (bsrc : Node) (bt : BlockType)
    (bval : List Node) (g : GStA) (cr : ContainerRule)
    (h : parseContainerRule psf prelude = some cr) :
    ∃ rules g2,
      transformContainerAtRuleA psf ser tsRec
        (.atRuleNode nm prelude (some (.blockNode bsrc bt bval))) g =
      (.atRuleNode "media" [.ident "all"]
        (some (.blockNode bsrc .ruleList (BLOCK_PREFIX ++ rules))), g2) := by
  simp only [transformContainerAtRuleA]
  rw [h]
  exact ⟨_, _, rfl⟩

theorem c5_media_all_wrapper_witness :
    parseContainerRule (fun _ => none) [parenBlockFoo] =
      some ⟨[], .value .unknown⟩ ∧
    ∃ rules g2,
      transformContainerAtRuleA (fun _ => none) (fun _ => "")
        (fun bval g => (bval, g))
        (.atRuleNode "container" [parenBlockFoo]
          (some (.blockNode .leftBrace .ruleList []))) ⟨[], 0⟩ =
      (.atRuleNode "media" [.ident "all"]
        (some (.blockNode .leftBrace .ruleList (BLOCK_PREFIX ++ rules))), g2) :=
  ⟨parseContainerRule_foo,
   c5_media_all_wrapper (fun _ => none) (fun _ => "") (fun bval g => (bval, g))
     "container" [parenBlockFoo] .leftBrace .ruleList [] ⟨[], 0⟩
     ⟨[], .value .unknown⟩ parseContainerRule_foo⟩

/-- C6: an unparseable @container prelude passes through verbatim with the
module state untouched (no descriptor registered), and the rule-list
transform keeps one output rule per input rule regardless. -/
theorem c6_container_parse_failure (psf : List Node → Option ExpressionNode)
    (ser : Node → String) (reparse : String → List Node) (sw iw : Bool)
    (tsRec : String → (Node → HookStB → Node × HookStB) → List Node →
      HookStB → GStB → List Node × HookStB × GStB)
    (pu : Option String) (nm : String) (prelude : List Node) (bsrc : Node)
    (bt : BlockType) (bval : List Node) (g : GStB)
    (h : parseContainerRule psf prelude = none) :
    transformContainerAtRuleB psf ser reparse sw iw tsRec pu
        (.atRuleNode nm prelude (some (.blockNode bsrc bt bval))) g =
      (.atRuleNode nm prelude (some (.blockNode bsrc bt bval)), g) ∧
    ∀ (hQ : Node → GStB → Node × GStB) (rules : List Node) (st : GStB),
      (transformStylesheetRules
        (fun n st => transformContainerAtRuleB psf ser reparse sw iw tsRec pu n st)
        hQ rules st).1.length = rules.length := by
  constructor
  · simp only [transformContainerAtRuleB]
    rw [h]
  · intro hQ rules st
    exact transformStylesheetRules_length _ hQ rules st

theorem c6_container_parse_failure_witness :
    parseContainerRule (fun _ => none) [] = none ∧
    transformContainerAtRuleB (fun _ => none) (fun _ => "") (fun _ => [])
        true false (fun _ _ bval hs g => (bval, hs, g)) none
        (.atRuleNode "container" []
          (some (.blockNode .leftBrace .ruleList []))) ⟨[], 0⟩ =
      (.atRuleNode "container" []
        (some (.blockNode .leftBrace .ruleList [])), ⟨[], 0⟩) :=
  ⟨parseContainerRule_nil,
   (c6_container_parse_failure (fun _ => none) (fun _ => "") (fun _ => [])
     true false (fun _ _ bval hs g => (bval, hs, g)) none "container" []
     .leftBrace .ruleList [] ⟨[], 0⟩ parseContainerRule_nil).1⟩

/-- C7: mixing `and` and `or` between in-parens terms at one nesting level
makes the (total, null-returning) condition parser return null. -/
theorem c7_condition_grammar_mixing (b : Node) (ps : List (String × Node))
    (hb : goodTerm b = true)
    (hall : ∀ p ∈ ps, goodTerm p.2 = true ∧ (p.1 = "and" ∨ p.1 = "or"))
    (hand : "and" ∈ ps.map Prod.fst) (hor : "or" ∈ ps.map Prod.fst) :
    parseMediaCondition (chainTokens b ps) = none :=
  parseMediaCondition_mixed b ps hb hall hand hor

theorem c7_condition_grammar_mixing_witness :
    goodTerm parenBlockFoo = true ∧
    "and" ∈ ([("and", parenBlockFoo), ("or", parenBlockFoo)].map Prod.fst) ∧
    "or" ∈ ([("and", parenBlockFoo), ("or", parenBlockFoo)].map Prod.fst) ∧
    parseMediaCondition (chainTokens parenBlockFoo
      [("and", parenBlockFoo), ("or", parenBlockFoo)]) = none :=
  ⟨rfl, by simp, by simp,
   c7_condition_grammar_mixing parenBlockFoo
     [("and", parenBlockFoo), ("or", parenBlockFoo)] rfl
     (by decide) (by simp) (by simp)⟩


/-- The computed-style reader of the C8 counterexample: an inline-displayed
element with container-type size. -/
def stylesInlineSize : String → String := fun name =>
  if name = CUSTOM_PROPERTY_TYPE then "cq-size"
  else if name = "display" then "inline" else ""

def parentState0 : LayoutState :=
  ⟨[], ⟨none, none, .num 0, .num 0, .horizontal⟩, 1, false, []⟩

/-- C8 counterexample: an element with display:inline and container-type:
size is classified as a query container although its display flags are not
eligible for size containment, and `inline` is outside the claim's list of
ineligible displays. -/
theorem c8_counterexample :
    (computeLayoutState (fun _ => false) (fun _ _ => none) stylesInlineSize
      parentState0).isQueryContainer = true ∧
    (computeLayoutState (fun _ => false) (fun _ _ => none) stylesInlineSize
      parentState0).displayFlags = 1 ∧
    ¬ (1 : ℕ).land FLAG_ELIGIBLE = FLAG_ELIGIBLE ∧
    computeDisplayFlags "inline" = 1 ∧
    "inline" ≠ "none" ∧ "inline" ≠ "contents" ∧
    tableOrRubyDisplayTypeTest "inline" = false := by
  refine ⟨?_, ?_, by decide, by decide, by decide, by decide, by decide⟩
  · rfl
  · rfl

/-- C8 (amended): the Normal→QueryContainer classification needs only a
positive computed container-type; the display flags gate only validity, and
the displays eligible for size containment are exactly those other than
none, contents, inline and the table/ruby families. -/
theorem c8_query_container_classification (isk : String → Bool)
    (evalCC : QueryRule → QueryContext → Option Bool)
    (styles : String → String) (parentState : LayoutState) :
    ((computeLayoutState isk evalCC styles parentState).isQueryContainer =
      decide (0 < computeContainerType isk (strTrim (styles CUSTOM_PROPERTY_TYPE)))) ∧
    (∀ d : String, ((computeDisplayFlags d).land FLAG_ELIGIBLE = FLAG_ELIGIBLE ↔
      (d ≠ "none" ∧ d ≠ "contents" ∧ d ≠ "inline" ∧
        tableOrRubyDisplayTypeTest d = false))) := by
  constructor
  · by_cases hct :
      0 < computeContainerType isk (strTrim (styles CUSTOM_PROPERTY_TYPE))
    · simp only [computeLayoutState, computeLayoutData]
      rw [if_pos hct]
      rw [decide_eq_true hct]
      rw [apply_ite LayoutState.isQueryContainer]
      simp
    · simp only [computeLayoutState, computeLayoutData]
      rw [if_neg hct]
      rw [decide_eq_false hct]
  · intro d
    by_cases h1 : d = "none"
    · subst h1
      simp [computeDisplayFlags]
      decide
    · by_cases h2 : d = "contents"
      · subst h2
        simp [computeDisplayFlags, FLAG_ENABLED, FLAG_ELIGIBLE]
      · by_cases h3 : d = "inline"
        · subst h3
          simp [computeDisplayFlags, FLAG_ENABLED, FLAG_ELIGIBLE]
        · by_cases h4 : tableOrRubyDisplayTypeTest d = false
          · simp [computeDisplayFlags, h1, h2, h3, h4, FLAG_ENABLED,
              FLAG_ELIGIBLE]
            decide
          · have h4t : tableOrRubyDisplayTypeTest d = true := by
              cases hx : tableOrRubyDisplayTypeTest d
              · exact absurd hx h4
              · rfl
            simp [computeDisplayFlags, h1, h2, h3, h4t, FLAG_ENABLED,
              FLAG_ELIGIBLE]

/-- C9: with a recorded previous value and every dependency re-read equal to
its recorded value, the memoized computation returns the cached state with
the record untouched and reports no recompute, so the update guard emits no
attribute write; dirtiness is exactly some re-read differing. -/
theorem c9_memoization_idempotence {W V T : Type} [DecidableEq V]
    [DecidableEq T] (readers : W → List (W → V)) (value : W → T)
    (st : MemoizedValue W V T) (w : W) (prev : T)
    (hprev : st.previousValue = some prev)
    (hclean : ∀ d ∈ st.dependencies, d.2 w = d.1) :
    createMemoizedValue readers value st w = (prev, st, false) ∧
    updateWritesAttributes prev (some prev) = false ∧
    (areDepsDirty w st.dependencies = false ↔
      ∀ d ∈ st.dependencies, d.2 w = d.1) := by
  have hdirty : areDepsDirty w st.dependencies = false := by
    simp only [areDepsDirty, List.any_eq_false]
    intro d hd
    simp [hclean d hd]
  refine ⟨?_, by simp [updateWritesAttributes], by simp [areDepsDirty]⟩
  simp only [createMemoizedValue]
  rw [hprev, hdirty]
  simp

theorem c9_memoization_idempotence_witness :
    ((⟨[((2 : ℕ), fun w => w)], some (7 : ℕ)⟩ :
        MemoizedValue ℕ ℕ ℕ).previousValue = some 7) ∧
    (∀ d ∈ (⟨[((2 : ℕ), fun w => w)], some (7 : ℕ)⟩ :
        MemoizedValue ℕ ℕ ℕ).dependencies, d.2 2 = d.1) ∧
    createMemoizedValue (fun _ => []) (fun w => w)
        (⟨[(2, fun w => w)], some 7⟩ : MemoizedValue ℕ ℕ ℕ) 2 =
      (7, ⟨[(2, fun w => w)], some 7⟩, false) :=
  ⟨rfl, by simp,
   (c9_memoization_idempotence (fun _ => []) (fun w => w)
     ⟨[(2, fun w => w)], some 7⟩ 2 7 rfl (by simp)).1⟩

/-- C10: numeric values in container-condition preludes go through parseInt:
a dimension token keeps the truncated integer and lower-cased unit, a ratio
is the quotient of two truncated integers, fractional digits never change
the parsed value, and concretely 300.5 parses as 300 and 1.5 as 1. -/
theorem c10_parseint_truncation :
    (∀ (v u : String) (f : NumberFlag),
      consumeValue [.dimension v u f] =
        some (.value (.dimension (jsParseInt v) (strLower u)))) ∧
    (∀ (a b : String) (fa fb : NumberFlag),
      consumeValue [.number a fa, .delim "/", .number b fb] =
        some (.value (.number ((jsParseInt a).div (jsParseInt b))))) ∧
    (∀ (d : Char) (ds fs : List Char), d.isDigit = true →
      (∀ c ∈ ds, c.isDigit = true) →
      jsParseInt ⟨(d :: ds) ++ '.' :: fs⟩ = jsParseInt ⟨d :: ds⟩) ∧
    jsParseInt "300.5" = .num 300 ∧ jsParseInt "1.5" = .num 1 := by
  refine ⟨?_, ?_, jsParseInt_fraction_irrelevant, ?_, ?_⟩
  · intro v u f
    simp [consumeValue, consumeWhitespaceL, List.dropWhile, isWhitespaceTok,
      finishValue, headE, isEOFTok]
  · intro a b fa fb
    simp [consumeValue, consumeNumberOrRatio, consumeMaybeSeparatedByDelim,
      consumeNumber, consumeWhitespaceL, List.dropWhile, isWhitespaceTok,
      finishValue, headE, isEOFTok]
  · rw [show ("300.5" : String) = ⟨('3' :: ['0', '0']) ++ '.' :: ['5']⟩ from
      by decide]
    rw [jsParseInt_fraction_irrelevant '3' ['0', '0'] ['5'] (by decide)
      (by decide)]
    rw [jsParseInt_digit_head '3' ['0', '0'] (by decide)]
    norm_num [List.takeWhile_cons, digitsVal, List.foldl,
      show ('3').toNat = 51 from by decide, show ('0').toNat = 48 from by decide]
  · rw [show ("1.5" : String) = ⟨('1' :: []) ++ '.' :: ['5']⟩ from by decide]
    rw [jsParseInt_fraction_irrelevant '1' [] ['5'] (by decide) (by decide)]
    rw [jsParseInt_digit_head '1' [] (by decide)]
    norm_num [List.takeWhile_cons, digitsVal, List.foldl,
      show ('1').toNat = 49 from by decide]

theorem c10_parseint_truncation_witness :
    ('3').isDigit = true ∧ (∀ c ∈ ['0'], c.isDigit = true) ∧
    jsParseInt ⟨('3' :: ['0']) ++ '.' :: ['9']⟩ = jsParseInt ⟨'3' :: ['0']⟩ :=
  ⟨by decide, by decide,
   c10_parseint_truncation.2.2.1 '3' ['0'] ['9'] (by decide) (by decide)⟩

end ContainerQueryPolyfill
